import Mathlib

/-!
Verification of the XTC/XTG codec and page-generation pipeline of the
xteink-x4-util-server repository.

The Python sources are shallowly embedded: byte strings become `List Nat`
(each entry a byte value), PIL images become a `Page` structure carrying
dimensions and a pixel function, and `struct.pack` fields become explicit
little-endian byte lists.  Machine integers are modelled as `Nat` with
explicit `% 2^w` where the format truncates.  Floating-point arithmetic in
the zoom splitter is modelled with exact rationals (`Rat`).
-/

namespace XteinkSpec

/-! ## Byte-string primitives (models of `struct.pack`/`struct.unpack`) -/

/-- Little-endian encoding of `n` into `k` bytes, truncating above `256^k`
    (model of `struct.pack` integer fields). -/
def toLE : Nat → Nat → List Nat
  | 0, _ => []
  | k + 1, n => n % 256 :: toLE k (n / 256)

/-- Little-endian decoding of a byte list (model of `struct.unpack`). -/
def readLE (l : List Nat) : Nat :=
  l.foldr (fun b acc => b + 256 * acc) 0

/-- The `len` bytes of `file` starting at offset `off`
    (model of a byte-slice `file[off : off + len]`). -/
def extract (file : List Nat) (off len : Nat) : List Nat :=
  (file.drop off).take len

theorem toLE_length (k n : Nat) : (toLE k n).length = k := by
  induction k generalizing n with
  | zero => rfl
  | succ k ih => simp [toLE, ih]

theorem toLE_two (n : Nat) : toLE 2 n = [n % 256, n / 256 % 256] := rfl

theorem toLE_four (n : Nat) :
    toLE 4 n = [n % 256, n / 256 % 256, n / 256 / 256 % 256,
      n / 256 / 256 / 256 % 256] := rfl

theorem readLE_toLE (k n : Nat) : readLE (toLE k n) = n % 256 ^ k := by
  induction k generalizing n with
  | zero => simp [toLE, readLE, Nat.mod_one]
  | succ k ih =>
    have h : readLE (toLE (k + 1) n) = n % 256 + 256 * readLE (toLE k (n / 256)) := rfl
    rw [h, ih, pow_succ]
    have h2 : 256 ^ k * 256 = 256 * 256 ^ k := by ring
    rw [h2, Nat.mod_mul]

theorem readLE_toLE_of_lt (k n : Nat) (h : n < 256 ^ k) :
    readLE (toLE k n) = n := by
  rw [readLE_toLE, Nat.mod_eq_of_lt h]

theorem extract_zero (l : List Nat) (n : Nat) : extract l 0 n = l.take n := rfl

theorem extract_cons (b : Nat) (l : List Nat) (k n : Nat) :
    extract (b :: l) (k + 1) n = extract l k n := rfl

theorem extract_append (a b : List Nat) (k n : Nat) :
    extract (a ++ b) (a.length + k) n = extract b k n := by
  unfold extract
  rw [List.drop_append_eq_append_drop]
  simp [List.drop_of_length_le]

theorem extract_append_zero (a b : List Nat) (n : Nat) :
    extract (a ++ b) a.length n = extract b 0 n := by
  have := extract_append a b 0 n
  simpa using this

theorem extract_front (a b : List Nat) (n : Nat) (h : n ≤ a.length) :
    extract (a ++ b) 0 n = a.take n := by
  unfold extract
  simp [List.take_append_eq_append_take, Nat.sub_eq_zero_of_le h]

theorem extract_self (a b : List Nat) : extract (a ++ b) 0 a.length = a := by
  rw [extract_front a b a.length (le_refl _), List.take_length]

/-! ## MD5 (model of `hashlib.md5`, the RFC 1321 algorithm over byte lists) -/

/-- Per-round sine-derived constants of MD5. -/
def md5K : List Nat :=
  [0xd76aa478, 0xe8c7b756, 0x242070db, 0xc1bdceee,
   0xf57c0faf, 0x4787c62a, 0xa8304613, 0xfd469501,
   0x698098d8, 0x8b44f7af, 0xffff5bb1, 0x895cd7be,
   0x6b901122, 0xfd987193, 0xa679438e, 0x49b40821,
   0xf61e2562, 0xc040b340, 0x265e5a51, 0xe9b6c7aa,
   0xd62f105d, 0x02441453, 0xd8a1e681, 0xe7d3fbc8,
   0x21e1cde6, 0xc33707d6, 0xf4d50d87, 0x455a14ed,
   0xa9e3e905, 0xfcefa3f8, 0x676f02d9, 0x8d2a4c8a,
   0xfffa3942, 0x8771f681, 0x6d9d6122, 0xfde5380c,
   0xa4beea44, 0x4bdecfa9, 0xf6bb4b60, 0xbebfbc70,
   0x289b7ec6, 0xeaa127fa, 0xd4ef3085, 0x04881d05,
   0xd9d4d039, 0xe6db99e5, 0x1fa27cf8, 0xc4ac5665,
   0xf4292244, 0x432aff97, 0xab9423a7, 0xfc93a039,
   0x655b59c3, 0x8f0ccc92, 0xffeff47d, 0x85845dd1,
   0x6fa87e4f, 0xfe2ce6e0, 0xa3014314, 0x4e0811a1,
   0xf7537e82, 0xbd3af235, 0x2ad7d2bb, 0xeb86d391]

/-- Per-round left-rotation amounts of MD5. -/
def md5S : List Nat :=
  [7, 12, 17, 22, 7, 12, 17, 22, 7, 12, 17, 22, 7, 12, 17, 22,
   5, 9, 14, 20, 5, 9, 14, 20, 5, 9, 14, 20, 5, 9, 14, 20,
   4, 11, 16, 23, 4, 11, 16, 23, 4, 11, 16, 23, 4, 11, 16, 23,
   6, 10, 15, 21, 6, 10, 15, 21, 6, 10, 15, 21, 6, 10, 15, 21]

/-- 32-bit left rotation. -/
def md5Rotl (x c : Nat) : Nat :=
  ((x <<< c) ||| (x >>> (32 - c))) % 4294967296

/-- MD5 round mixing function for round `i`. -/
def md5F (i b c d : Nat) : Nat :=
  if i < 16 then (b &&& c) ||| ((b ^^^ 0xFFFFFFFF) &&& d)
  else if i < 32 then (d &&& b) ||| ((d ^^^ 0xFFFFFFFF) &&& c)
  else if i < 48 then b ^^^ c ^^^ d
  else c ^^^ (b ||| (d ^^^ 0xFFFFFFFF))

/-- Message-word schedule index for round `i`. -/
def md5G (i : Nat) : Nat :=
  if i < 16 then i
  else if i < 32 then (5 * i + 1) % 16
  else if i < 48 then (3 * i + 5) % 16
  else (7 * i) % 16

/-- The four 32-bit words of the MD5 state. -/
structure MD5State where
  a : Nat
  b : Nat
  c : Nat
  d : Nat

/-- One of the 64 MD5 rounds; `m g` is the `g`-th little-endian word of
    the current 512-bit chunk. -/
def md5Step (m : Nat → Nat) (st : MD5State) (i : Nat) : MD5State :=
  let f := (md5F i st.b st.c st.d + st.a + md5K.getD i 0 + m (md5G i)) % 4294967296
  ⟨st.d, (st.b + md5Rotl f (md5S.getD i 0)) % 4294967296, st.b, st.c⟩

/-- Process one 64-byte chunk. -/
def md5ProcessChunk (st : MD5State) (chunk : List Nat) : MD5State :=
  let m := fun g => readLE (extract chunk (4 * g) 4)
  let r := (List.range 64).foldl (md5Step m) st
  ⟨(st.a + r.a) % 4294967296, (st.b + r.b) % 4294967296,
   (st.c + r.c) % 4294967296, (st.d + r.d) % 4294967296⟩

/-- Split a byte list into 64-byte chunks (fuel-driven so the kernel can
    evaluate it; `fuel = l.length` always suffices since every step drops
    at least one byte of a non-empty list). -/
def md5ChunksAux : Nat → List Nat → List (List Nat)
  | 0, _ => []
  | fuel + 1, l => if l = [] then [] else l.take 64 :: md5ChunksAux fuel (l.drop 64)

/-- Split a byte list into 64-byte chunks. -/
def md5Chunks (l : List Nat) : List (List Nat) :=
  md5ChunksAux l.length l

/-- MD5 padding: a 0x80 byte, zeros to 56 mod 64, then the 64-bit bit length. -/
def md5Pad (msg : List Nat) : List Nat :=
  msg ++ 128 :: List.replicate ((119 - msg.length % 64) % 64) 0 ++
    toLE 8 (8 * msg.length)

/-- MD5 digest of a byte list: 16 bytes. -/
def md5 (msg : List Nat) : List Nat :=
  let st := (md5Chunks (md5Pad msg)).foldl md5ProcessChunk
    ⟨0x67452301, 0xefcdab89, 0x98badcfe, 0x10325476⟩
  toLE 4 st.a ++ toLE 4 st.b ++ toLE 4 st.c ++ toLE 4 st.d

theorem md5_length (msg : List Nat) : (md5 msg).length = 16 := by
  simp [md5, toLE_length]

/-! ## Images

A PIL image is modelled as its dimensions together with an 8-bit grayscale
pixel function (`pix x y`); every image the builders receive from the
conversion pipeline is already in mode `L`, so `img.convert("L")` is the
identity on the model. -/

/-- Model of a PIL grayscale image. -/
structure Page where
  width : Nat
  height : Nat
  pix : Nat → Nat → Nat

/-- Modelled from the spec: PIL `Image.resize` with the LANCZOS resampler is an
external library primitive (§4.2 treats resampling as given).  Only the
dimensions of its result are relied on by any claim, so the resampled pixel
content is modelled by reading the source pixel function directly. -/
def pil_resize (img : Page) (w h : Nat) : Page := ⟨w, h, img.pix⟩

/-- The thresholded bit of pixel `(x, y)`: 1 when the pixel is in range and
    at least `threshold` (the `bit = 1 if pixels[x, y] >= threshold else 0`
    line; out-of-range `x` never sets a bit in the packing loop). -/
def pixBit (img : Page) (threshold x y : Nat) : Nat :=
  if x < img.width ∧ threshold ≤ img.pix x y then 1 else 0

/-- Byte `b` of packed row `y`: the eight MSB-first bits
    `x = 8*b .. 8*b+7` (the `data[byte_index] |= 1 << (7 - x % 8)` loop). -/
def packRowByte (img : Page) (threshold y b : Nat) : Nat :=
  pixBit img threshold (8 * b) y * 128 + pixBit img threshold (8 * b + 1) y * 64 +
  pixBit img threshold (8 * b + 2) y * 32 + pixBit img threshold (8 * b + 3) y * 16 +
  pixBit img threshold (8 * b + 4) y * 8 + pixBit img threshold (8 * b + 5) y * 4 +
  pixBit img threshold (8 * b + 6) y * 2 + pixBit img threshold (8 * b + 7) y

/-- Row `y` of the packed bitmap: `ceil(width/8)` bytes. -/
def packRow (img : Page) (threshold y : Nat) : List Nat :=
  (List.range ((img.width + 7) / 8)).map (packRowByte img threshold y)

/-- The MSB-first 1-bit-packed bitmap of `img`, row-major with row stride
    `ceil(width/8)` bytes (the double loop of `_png_to_xtg_bytes`). -/
def packBitmap (img : Page) (threshold : Nat) : List Nat :=
  ((List.range img.height).map (packRow img threshold)).flatten

/-! ## `src/modules/manga_formatter/xtc.py` -/

/-- `_png_to_xtg_bytes`: XTG header (magic `"XTG\x00"`, width, height,
    colorMode 0, compression 0, payload length, first 8 MD5 bytes) followed
    by the packed bitmap.  A source image whose size differs from
    `force_size` is first resized (LANCZOS). -/
def png_to_xtg_bytes (img : Page) (forceW forceH threshold : Nat) : List Nat :=
  let img2 := if img.width = forceW ∧ img.height = forceH then img
              else pil_resize img forceW forceH
  let data := packBitmap img2 threshold
  [88, 84, 71, 0] ++ toLE 2 img2.width ++ toLE 2 img2.height ++ [0] ++ [0] ++
    toLE 4 data.length ++ (md5 data).take 8 ++ data

/-- One 16-byte index entry: absolute offset (8B), blob length (4B), then
    width and height as unpacked from blob bytes 4..8 (`struct.unpack_from`)
    and re-packed. -/
def xtcIndexEntry (blob : List Nat) (rel : Nat) : List Nat :=
  toLE 8 rel ++ toLE 4 blob.length ++
    toLE 2 (readLE (extract blob 4 2)) ++ toLE 2 (readLE (extract blob 6 2))

/-- The index table of `build_xtc`: one entry per blob, the running
    `rel_offset` advancing by each blob's length. -/
def xtcIndexTable : List (List Nat) → Nat → List Nat
  | [], _ => []
  | blob :: rest, rel => xtcIndexEntry blob rel ++ xtcIndexTable rest (rel + blob.length)

/-- The 48-byte XTC header of `build_xtc`
    (`struct.pack("<4sHHBBBBIQQQQ", ...)`). -/
def xtcHeader (pageCount indexOff dataOff : Nat) : List Nat :=
  [88, 84, 67, 0] ++ toLE 2 1 ++ toLE 2 pageCount ++ [0] ++ [0] ++ [0] ++ [0] ++
    toLE 4 0 ++ toLE 8 0 ++ toLE 8 indexOff ++ toLE 8 dataOff ++ toLE 8 0

/-- `build_xtc`: the bytes written to the output file — header, index
    table, then the concatenated XTG blobs. -/
def build_xtc (pil_images : List Page) (forceW forceH : Nat) : List Nat :=
  let xtg_blobs := pil_images.map (fun img => png_to_xtg_bytes img forceW forceH 200)
  let page_count := xtg_blobs.length
  let index_offset := 48
  let data_offset := index_offset + page_count * 16
  xtcHeader page_count index_offset data_offset ++
    xtcIndexTable xtg_blobs data_offset ++ xtg_blobs.flatten

/-! ## `src/modules/book_converter/converter.py` (XTC building portion) -/

/-- Modelled from the spec: `img.convert("1")` applies PIL's error-diffusion
binarization, an external primitive (§4.2).  The claims about the book
builder rely only on the packed payload's length and on its content for
all-white input, where error diffusion and plain thresholding agree; the
model uses PIL's 1-bit threshold of 128. -/
def pil_convert1_bytes (img : Page) : List Nat :=
  packBitmap img 128

/-- `_image_to_xtg_blob`: XTG header with payload length
    `((w + 7) // 8) * h` and a zero checksum field, followed by the 1-bit
    packed bitmap; mismatched images are first resized (LANCZOS). -/
def image_to_xtg_blob (img : Page) (w h : Nat) : List Nat :=
  let img2 := if img.width = w ∧ img.height = h then img else pil_resize img w h
  let bitmap_data := pil_convert1_bytes img2
  let data_size := ((w + 7) / 8) * h
  [88, 84, 71, 0] ++ toLE 2 w ++ toLE 2 h ++ [0] ++ [0] ++
    toLE 4 data_size ++ toLE 8 0 ++ bitmap_data

/-- Zero-padded fixed-size field (a `struct.pack_into "<Ns"` write). -/
def packField (size : Nat) (data : List Nat) : List Nat :=
  data ++ List.replicate (size - data.length) 0

/-- `_pack_metadata`: 256-byte metadata block.  `now` is the external
    `int(time.time())` input. -/
def pack_metadata (title author lang : List Nat) (now chapterCount : Nat) :
    List Nat :=
  packField 128 (title.take 127) ++ packField 64 (author.take 63) ++
    packField 32 [88, 52, 85, 116, 105, 108, 115] ++ packField 16 (lang.take 15) ++
    toLE 4 now ++ toLE 2 0 ++ toLE 2 chapterCount ++ List.replicate 8 0

/-- `_pack_chapter`: 96-byte chapter record. -/
def pack_chapter (name : List Nat) (startPg endPg : Nat) : List Nat :=
  packField 80 (name.take 79) ++ toLE 2 startPg ++ toLE 2 endPg ++
    List.replicate 12 0

/-- A chapter tuple `(title, start_page, end_page)` as passed to
    `build_book_xtc`; the name is its UTF-8 byte encoding. -/
structure BookChapter where
  name : List Nat
  startPg : Nat
  endPg : Nat

/-- The 56-byte extended XTC header of `build_book_xtc`
    (`struct.pack("<IHHBBBBIQQQQQ", ...)`). -/
def bookHeader (pageCount metadataOff indexOff dataOff chapterOff : Nat) :
    List Nat :=
  [88, 84, 67, 0] ++ toLE 2 256 ++ toLE 2 pageCount ++ [0] ++ [1] ++ [0] ++ [1] ++
    toLE 4 1 ++ toLE 8 metadataOff ++ toLE 8 indexOff ++ toLE 8 dataOff ++
    toLE 8 0 ++ toLE 8 chapterOff

/-- The index table of `build_book_xtc`: entry `i` records
    `data_off + len(blob_data so far)`, the blob length, and the declared
    width/height. -/
def bookIndexTable : List (List Nat) → Nat → Nat → Nat → List Nat
  | [], _, _, _ => []
  | blob :: rest, off, w, h =>
      (toLE 8 off ++ toLE 4 blob.length ++ toLE 2 w ++ toLE 2 h) ++
        bookIndexTable rest (off + blob.length) w h

/-- `build_book_xtc`: the bytes written to the output file — header,
    metadata block, chapter table, index table, then blob data. -/
def build_book_xtc (pages : List Page) (title author lang : List Nat)
    (chapters : List BookChapter) (w h now : Nat) : List Nat :=
  let total_pages := pages.length
  let num_chaps := chapters.length
  let metadata_off := 56
  let chapter_off := metadata_off + 256
  let index_off := chapter_off + num_chaps * 96
  let data_off := index_off + total_pages * 16
  let blobs := pages.map (fun img => image_to_xtg_blob img w h)
  bookHeader total_pages metadata_off index_off data_off chapter_off ++
    pack_metadata title author lang now num_chaps ++
    (chapters.map (fun c => pack_chapter c.name c.startPg c.endPg)).flatten ++
    bookIndexTable blobs data_off w h ++ blobs.flatten

/-! ## XTC/XTG reader

Modelled from the spec: the repository ships no reader (§4.8 specifies the
implied counterpart used for round-trip verification), so the parser below
follows the layout of spec §6 and the failure conditions of §4.8: validate
the magic, read the index table, reject any offset/length outside the file
and any payload whose size differs from `row_stride * height`, and unpack
each page's MSB-first 1-bit bitmap. -/

/-- Evaluate an `Option`-returning function across a list, failing if any
    element fails. -/
def optList {α β : Type} (f : α → Option β) : List α → Option (List β)
  | [] => some []
  | a :: rest =>
    match f a, optList f rest with
    | some b, some bs => some (b :: bs)
    | _, _ => none

/-- Unpack an MSB-first 1-bit packed bitmap with row stride
    `ceil(w/8)` into a `h × w` grid of bits. -/
def unpackBitmap (w h : Nat) (payload : List Nat) : List (List Nat) :=
  (List.range h).map (fun y =>
    (List.range w).map (fun x =>
      payload.getD (y * ((w + 7) / 8) + x / 8) 0 / 2 ^ (7 - x % 8) % 2))

/-- Modelled from the spec: parse one XTG blob (§6 layout), rejecting a bad
    magic or a payload whose byte count differs from `row_stride * height`. -/
def parseXtg (blob : List Nat) : Option (Nat × Nat × List (List Nat)) :=
  let w := readLE (extract blob 4 2)
  let h := readLE (extract blob 6 2)
  let plen := readLE (extract blob 10 4)
  if extract blob 0 4 = [88, 84, 71, 0] ∧ blob.length = 22 + plen ∧
      plen = ((w + 7) / 8) * h then
    some (w, h, unpackBitmap w h (blob.drop 22))
  else none

/-- Modelled from the spec: read index entry at `entryOff` and fetch the
    page blob it points to, rejecting out-of-bounds offset/length. -/
def parsePageAt (file : List Nat) (entryOff : Nat) :
    Option (Nat × Nat × List (List Nat)) :=
  let off := readLE (extract file entryOff 8)
  let len := readLE (extract file (entryOff + 8) 4)
  if off + len ≤ file.length then parseXtg (extract file off len) else none

/-- Modelled from the spec: parse an XTC container into its pages
    (width, height, unpacked bitmap per page). -/
def parseXtc (file : List Nat) : Option (List (Nat × Nat × List (List Nat))) :=
  if extract file 0 4 = [88, 84, 67, 0] then
    let n := readLE (extract file 6 2)
    let indexOff := readLE (extract file 24 8)
    optList (fun i => parsePageAt file (indexOff + 16 * i)) (List.range n)
  else none

/-- The binarization of a page at `threshold`: bit 1 where the pixel value
    is at least the threshold. -/
def binarizePage (img : Page) (threshold : Nat) : List (List Nat) :=
  (List.range img.height).map (fun y =>
    (List.range img.width).map (fun x => if threshold ≤ img.pix x y then 1 else 0))

/-! ## `src/modules/manga_formatter/converter.py`: settings -/

/-- The parsed settings dictionary (Python ints modelled as `Int`). -/
structure Settings where
  dithering : Bool
  contrast : Int
  target_width : Int
  target_height : Int
  long_strip : Bool
  overlap : Int

/-- A raw settings dictionary: each key may be absent. -/
structure RawSettings where
  dithering : Option Bool
  long_strip : Option Bool
  overlap : Option Int
  contrast : Option Int
  target_width : Option Int
  target_height : Option Int

/-- `DEFAULT_SETTINGS`. -/
def defaultSettings : Settings :=
  { dithering := true, contrast := 4, target_width := 480,
    target_height := 800, long_strip := false, overlap := 33 }

/-- `_parse_settings`: defaults overridden by present keys, with `overlap`
    clamped to `[0, 90]` and `contrast` clamped to `[0, 8]`. -/
def parse_settings (raw : Option RawSettings) : Settings :=
  match raw with
  | none => defaultSettings
  | some r =>
    { dithering := r.dithering.getD defaultSettings.dithering
      long_strip := r.long_strip.getD defaultSettings.long_strip
      overlap :=
        match r.overlap with
        | none => defaultSettings.overlap
        | some v => max 0 (min 90 v)
      contrast :=
        match r.contrast with
        | none => defaultSettings.contrast
        | some v => max 0 (min 8 v)
      target_width := r.target_width.getD defaultSettings.target_width
      target_height := r.target_height.getD defaultSettings.target_height }

/-! ## Image transform primitives -/

/-- Python `int()` applied to a rational: truncation toward zero. -/
def pyInt (q : ℚ) : ℤ := if 0 ≤ q then ⌊q⌋ else -⌊-q⌋

/-- `_to_grayscale`: alpha flattening and palette conversion are PIL mode
    conversions; the model carries 8-bit grayscale throughout, on which the
    function is the identity. -/
def to_grayscale (img : Page) : Page := img

/-- Modelled from the spec: `ImageOps.autocontrast` is an external PIL tone
    stretch (§4.2); it preserves dimensions and no claim depends on its
    pixel values, so the model keeps the pixel function. -/
def pil_autocontrast (img : Page) (_level : Int) : Page :=
  ⟨img.width, img.height, img.pix⟩

/-- `_apply_contrast`: level 0 is the identity, otherwise the autocontrast
    stretch. -/
def apply_contrast (img : Page) (level : Int) : Page :=
  if level = 0 then img else pil_autocontrast img level

/-- `_resize_and_pad`: uniform scale to fit, LANCZOS resize (and optional
    dithering, both external primitives that preserve dimensions), then
    centered paste onto a white (255) canvas of the target size. -/
def resize_and_pad (img : Page) (tw th : Nat) (dithering : Bool) : Page :=
  let iw := img.width
  let ih := img.height
  let scale : ℚ := min ((tw : ℚ) / (iw : ℚ)) ((th : ℚ) / (ih : ℚ))
  let nw := (pyInt ((iw : ℚ) * scale)).toNat
  let nh := (pyInt ((ih : ℚ) * scale)).toNat
  let resized := pil_resize img nw nh
  let _ := dithering
  ⟨tw, th, fun x y =>
    if (tw - nw) / 2 ≤ x ∧ x < (tw - nw) / 2 + nw ∧
        (th - nh) / 2 ≤ y ∧ y < (th - nh) / 2 + nh then
      resized.pix (x - (tw - nw) / 2) (y - (th - nh) / 2)
    else 255⟩

/-- PIL `img.crop((left, top, right, bottom))`: the result has size
    `(right - left, bottom - top)`; regions outside the source read as 0. -/
def pil_crop (img : Page) (left top right bottom : Int) : Page :=
  ⟨(right - left).toNat, (bottom - top).toNat, fun x y =>
    if 0 ≤ left + x ∧ left + x < img.width ∧ 0 ≤ top + y ∧ top + y < img.height
    then img.pix (left + x).toNat (top + y).toNat else 0⟩

/-- PIL `img.rotate(-90, expand=True)`: rotate 90° clockwise with canvas
    expansion, swapping the dimensions. -/
def pil_rotate_cw (img : Page) : Page :=
  ⟨img.height, img.width, fun x y => img.pix y (img.height - 1 - x)⟩

/-! ## `_process_zoom_page` (the zoom splitter), floats as exact rationals -/

/-- `established_scale = th * 1.0 / width`. -/
def established_scale (th width : Nat) : ℚ := (th : ℚ) / (width : ℚ)

/-- `overlapping_height = tw / established_scale`. -/
def overlapping_height (tw th width : Nat) : ℚ :=
  (tw : ℚ) / established_scale th width

/-- The `shift` the loop recomputes for a given segment count. -/
def zoomShiftFor (oh : ℚ) (height n : Nat) : ℚ :=
  if 1 < n then oh - (oh * (n : ℚ) - (height : ℚ)) / ((n : ℚ) - 1) else 0

/-- The `while num_segments < 26 and shift > 0 and shift/oh > 0.95` loop;
    fuel 23 covers every increment from the initial 3 up to the cap. -/
def zoomLoop (oh : ℚ) (height : Nat) : Nat → Nat → Nat
  | 0, n => n
  | fuel + 1, n =>
    if n < 26 ∧ 0 < zoomShiftFor oh height n ∧
        (19 : ℚ) / 20 < zoomShiftFor oh height n / oh then
      zoomLoop oh height fuel (n + 1)
    else n

/-- The final `num_segments` of `_process_zoom_page`
    (`desired_segments = 3` start). -/
def num_segments (tw th width height : Nat) : Nat :=
  zoomLoop (overlapping_height tw th width) height 23 3

/-- Crop top of band `v`: `int(shift * v)`. -/
def zoomTop (shift : ℚ) (v : Nat) : ℤ := pyInt (shift * (v : ℚ))

/-- Crop bottom of band `v`:
    `int(height - shift * (num_segments - v - 1))`. -/
def zoomBottom (shift : ℚ) (height n v : Nat) : ℤ :=
  pyInt ((height : ℚ) - shift * ((n : ℚ) - (v : ℚ) - 1))

/-- The band list of `_process_zoom_page`: crop, rotate clockwise with
    expansion, resize-and-pad, in band order. -/
def zoomSegments (img : Page) (tw th : Nat) (dithering : Bool) : List Page :=
  let oh := overlapping_height tw th img.width
  let n := num_segments tw th img.width img.height
  let shift := zoomShiftFor oh img.height n
  (List.range n).map (fun v =>
    resize_and_pad
      (pil_rotate_cw
        (pil_crop img 0 (zoomTop shift v) (img.width : Int)
          (zoomBottom shift img.height n v)))
      tw th dithering)

/-- `_process_zoom_page`: grayscale, contrast, then the band split. -/
def process_zoom_page (img : Page) (tw th : Nat) (contrast : Int)
    (dithering : Bool) : List Page :=
  zoomSegments (apply_contrast (to_grayscale img) contrast) tw th dithering

/-! ## `_process_long_strip` (only its window-step computation is claimed) -/

/-- The step before the fallback:
    `target_h - int(target_h * (overlap / 100.0))`. -/
def long_strip_raw_step (s : Settings) : ℤ :=
  s.target_height - pyInt ((s.target_height : ℚ) * ((s.overlap : ℚ) / 100))

/-- The `(step, overlap_px)` pair actually used, with the `step <= 0`
    fallback to `step = 10`. -/
def long_strip_step (s : Settings) : ℤ × ℤ :=
  let overlap_px := pyInt ((s.target_height : ℚ) * ((s.overlap : ℚ) / 100))
  let step := s.target_height - overlap_px
  if step ≤ 0 then (10, s.target_height - 10) else (step, overlap_px)

/-! ## `extract_chapter_number` and `classify_cbz_files`

The relevant Python regular expressions are embedded as deterministic
scanners.  Each pattern here has the shape `keyword, \s*, [._-]?, \s*,
\d+(?:\.\d+)?`; since a digit is neither a space nor a separator, greedy
matching with backtracking reduces to the direct case split coded below.
Lowercasing the whole name models the `re.IGNORECASE` flag (the extracted
groups consist of digits and dots, which lowercasing fixes). -/

/-- Python `\s` on ASCII text: space, tab, newline, carriage return,
    form feed, vertical tab. -/
def isPySpace (c : Char) : Bool :=
  c = ' ' ∨ c = '\t' ∨ c = '\n' ∨ c = '\r' ∨ c = Char.ofNat 12 ∨ c = Char.ofNat 11

/-- The separator class `[._-]`. -/
def isSepChar (c : Char) : Bool := c = '.' ∨ c = '_' ∨ c = '-'

/-- Greedy match of `\d+(?:\.\d+)?` at the head of `s`: returns the matched
    characters and the remainder. -/
def matchNumber (s : List Char) : Option (List Char × List Char) :=
  let ds := s.takeWhile Char.isDigit
  if ds.isEmpty then none
  else
    let rest := s.drop ds.length
    match rest with
    | '.' :: r2 =>
      let fs := r2.takeWhile Char.isDigit
      if fs.isEmpty then some (ds, rest)
      else some (ds ++ '.' :: fs, r2.drop fs.length)
    | _ => some (ds, rest)

/-- Match `kw \s* [._-]? \s* (\d+(?:\.\d+)?)` at the head of `s`: returns
    the number group and the count of characters consumed. -/
def matchKwNumAt (kw s : List Char) : Option (List Char × Nat) :=
  if s.take kw.length = kw then
    let r1 := (s.drop kw.length).dropWhile isPySpace
    let r2 :=
      match r1 with
      | c :: r3 => if isSepChar c then r3.dropWhile isPySpace else r1
      | [] => r1
    match matchNumber r2 with
    | some (g, rest) => some (g, s.length - rest.length)
    | none => none
  else none

/-- `pat.search`: leftmost match of a keyword-number pattern, returning the
    number group. -/
def searchKwNum (kw : List Char) : List Char → Option (List Char)
  | [] => none
  | c :: rest =>
    match matchKwNumAt kw (c :: rest) with
    | some (g, _) => some g
    | none => searchKwNum kw rest

/-- The `_CH_PATTERNS` loop: `chapter`, then `chp`, then `ch`, each
    searched over the whole name; first pattern with a match wins. -/
def chPatternsSearch (base : List Char) : Option (List Char) :=
  match searchKwNum ['c', 'h', 'a', 'p', 't', 'e', 'r'] base with
  | some g => some g
  | none =>
    match searchKwNum ['c', 'h', 'p'] base with
    | some g => some g
    | none => searchKwNum ['c', 'h'] base

/-- Match of `_VOL_NOISE = (?:vol(?:ume)?|book|bk)\s*[._-]?\s*\d+(?:\.\d+)?`
    at the head of `s`, returning the match length; alternatives in the
    regex engine's preference order. -/
def matchVolAt (s : List Char) : Option Nat :=
  match matchKwNumAt ['v', 'o', 'l', 'u', 'm', 'e'] s with
  | some (_, len) => some len
  | none =>
    match matchKwNumAt ['v', 'o', 'l'] s with
    | some (_, len) => some len
    | none =>
      match matchKwNumAt ['b', 'o', 'o', 'k'] s with
      | some (_, len) => some len
      | none => (matchKwNumAt ['b', 'k'] s).map Prod.snd

/-- `_VOL_NOISE.sub('', base)`: delete every leftmost non-overlapping
    match while scanning (fuel-driven; each step consumes at least one
    character, so `fuel = s.length` suffices). -/
def volNoiseSubAux : Nat → List Char → List Char
  | 0, _ => []
  | fuel + 1, s =>
    match s with
    | [] => []
    | c :: rest =>
      match matchVolAt (c :: rest) with
      | some len => volNoiseSubAux fuel ((c :: rest).drop len)
      | none => c :: volNoiseSubAux fuel rest

/-- `_VOL_NOISE.sub('', base)`. -/
def volNoiseSub (s : List Char) : List Char := volNoiseSubAux s.length s

/-- `re.findall(r'(?<!\d)(\d+(?:\.\d+)?)(?!\d)', s)`: scan left to right
    tracking whether the previous character was a digit; the trailing
    lookahead is automatic because the number match is maximal. -/
def findNumTokensAux : Nat → Bool → List Char → List (List Char)
  | 0, _, _ => []
  | _ + 1, _, [] => []
  | fuel + 1, prevDigit, c :: rest =>
    if c.isDigit ∧ prevDigit = false then
      match matchNumber (c :: rest) with
      | some (g, after) => g :: findNumTokensAux fuel true after
      | none => []
    else findNumTokensAux fuel c.isDigit rest

/-- All number tokens of `s`, in order. -/
def findNumTokens (s : List Char) : List (List Char) :=
  findNumTokensAux s.length false s

/-- `os.path.basename`: the suffix after the last `/`. -/
def pyBasename (s : List Char) : List Char :=
  s.foldl (fun acc c => if c = '/' then [] else acc ++ [c]) []

/-- The root part of `os.path.splitext`: cut at the last dot, unless every
    character before that dot is itself a dot. -/
def pySplitextRoot (s : List Char) : List Char :=
  match ((List.range s.length).filter (fun i => s.getD i ' ' = '.')).getLast? with
  | none => s
  | some i => if (s.take i).any (fun c => c ≠ '.') then s.take i else s

/-- `int(num_str.split('.')[0])`: the digits before any dot, as a number. -/
def numVal (g : List Char) : Nat :=
  (g.takeWhile Char.isDigit).foldl (fun a c => a * 10 + (c.toNat - 48)) 0

/-- `'.' in num_str`. -/
def isDecimalStr (g : List Char) : Bool := g.contains '.'

/-- `extract_chapter_number`: keyword patterns first; otherwise strip
    volume/book noise and take the last number token. -/
def extract_chapter_number (filename : String) : Option Nat × Bool :=
  let base := (pySplitextRoot (pyBasename filename.toList)).map Char.toLower
  match chPatternsSearch base with
  | some g => (some (numVal g), isDecimalStr g)
  | none =>
    match (findNumTokens (volNoiseSub base)).getLast? with
    | some g => (some (numVal g), isDecimalStr g)
    | none => (none, false)

/-- One iteration of the `classify_cbz_files` loop over the running
    `(recognized, unrecognized)` state.  The `recognized` dict is an
    insertion-ordered association list. -/
def classifyStep (st : List (Nat × String) × List String) (path : String) :
    List (Nat × String) × List String :=
  match extract_chapter_number path with
  | (none, _) => (st.1, st.2 ++ [path])
  | (some n, isDec) =>
    if (st.1.lookup n).isSome then
      if isDec then st else (st.1, st.2 ++ [path])
    else (st.1 ++ [(n, path)], st.2)

/-- `classify_cbz_files`. -/
def classify_cbz_files (paths : List String) :
    List (Nat × String) × List String :=
  paths.foldl classifyStep ([], [])

/-! ## Byte-layout lemmas -/

theorem extract_within_front (a b : List Nat) (k n : Nat)
    (h : k + n ≤ a.length) : extract (a ++ b) k n = extract a k n := by
  unfold extract
  rw [List.drop_append_eq_append_drop, Nat.sub_eq_zero_of_le (by omega),
    List.drop_zero, List.take_append_eq_append_take]
  have hlen : n ≤ (List.drop k a).length := by
    rw [List.length_drop]; omega
  rw [Nat.sub_eq_zero_of_le hlen, List.take_zero, List.append_nil]

theorem drop_append_add (a b : List Nat) (k : Nat) :
    (a ++ b).drop (a.length + k) = b.drop k := by
  rw [List.drop_append_eq_append_drop, Nat.add_sub_cancel_left]
  simp [List.drop_of_length_le]

theorem packField_length (size : Nat) (data : List Nat)
    (h : data.length ≤ size) : (packField size data).length = size := by
  simp [packField]; omega

theorem pack_metadata_length (title author lang : List Nat)
    (now chapterCount : Nat) :
    (pack_metadata title author lang now chapterCount).length = 256 := by
  have h1 := packField_length 128 (title.take 127) (by simp)
  have h2 := packField_length 64 (author.take 63) (by simp)
  have h4 := packField_length 16 (lang.take 15) (by simp)
  simp [pack_metadata, h1, h2, h4, packField, toLE_length]
  omega

theorem pack_chapter_length (name : List Nat) (startPg endPg : Nat) :
    (pack_chapter name startPg endPg).length = 96 := by
  have h1 := packField_length 80 (name.take 79) (by simp)
  simp [pack_chapter, h1, toLE_length]

theorem flatten_length_uniform {α : Type} (rows : List (List α)) (k : Nat)
    (h : ∀ r ∈ rows, r.length = k) :
    rows.flatten.length = rows.length * k := by
  induction rows with
  | nil => simp
  | cons r rest ih =>
    simp only [List.flatten_cons, List.length_append, List.length_cons]
    rw [h r (by simp), ih (fun r hr => h r (by simp [hr]))]
    ring

theorem flatten_extract (blobs : List (List Nat)) (B i : Nat)
    (h : ∀ bl ∈ blobs, bl.length = B) (hi : i < blobs.length) :
    extract blobs.flatten (i * B) B = blobs.getD i [] := by
  induction blobs generalizing i with
  | nil => simp at hi
  | cons bl rest ih =>
    cases i with
    | zero =>
      have hb : bl.length = B := h bl (by simp)
      simp only [List.flatten_cons, Nat.zero_mul, List.getD_cons_zero]
      rw [← hb, extract_self]
    | succ i =>
      have hb : bl.length = B := h bl (by simp)
      have harith : (i + 1) * B = bl.length + i * B := by rw [hb]; ring
      rw [List.flatten_cons, harith, extract_append, List.getD_cons_succ]
      exact ih i (fun r hr => h r (List.mem_cons_of_mem _ hr))
        (by simpa using hi)

theorem getD_append_add {α : Type} (a b : List α) (m : Nat) (d : α) :
    (a ++ b).getD (a.length + m) d = b.getD m d := by
  induction a with
  | nil => simp
  | cons x xs ih => simpa [Nat.succ_add] using ih

theorem getD_append_lt {α : Type} (a b : List α) (m : Nat) (d : α)
    (h : m < a.length) : (a ++ b).getD m d = a.getD m d := by
  induction a generalizing m with
  | nil => simp at h
  | cons x xs ih =>
    cases m with
    | zero => simp
    | succ m => simpa using ih m (by simpa using h)

theorem flatten_getD (rows : List (List Nat)) (k y b : Nat)
    (h : ∀ r ∈ rows, r.length = k) (hy : y < rows.length) (hb : b < k) :
    rows.flatten.getD (y * k + b) 0 = (rows.getD y []).getD b 0 := by
  induction rows generalizing y with
  | nil => simp at hy
  | cons r rest ih =>
    cases y with
    | zero =>
      have hr : r.length = k := h r (by simp)
      simp only [List.flatten_cons, Nat.zero_mul, Nat.zero_add,
        List.getD_cons_zero]
      exact getD_append_lt r rest.flatten b 0 (by omega)
    | succ y =>
      have hr : r.length = k := h r (by simp)
      have harith : (y + 1) * k + b = r.length + (y * k + b) := by
        rw [hr]; ring
      rw [List.flatten_cons, List.getD_cons_succ, harith, getD_append_add]
      exact ih y (fun r hr => h r (List.mem_cons_of_mem _ hr))
        (by simpa using hy)

theorem getD_map {α β : Type} (l : List α) (f : α → β) (i : Nat) (d : α)
    (hi : i < l.length) : (l.map f).getD i (f d) = f (l.getD i d) := by
  induction l generalizing i with
  | nil => simp at hi
  | cons a rest ih =>
    cases i with
    | zero => simp
    | succ i => exact ih i (by simpa using hi)

theorem map_range_getD {α β : Type} (l : List α) (F : α → β) (d : α) :
    (List.range l.length).map (fun i => F (l.getD i d)) = l.map F := by
  induction l with
  | nil => simp
  | cons a rest ih =>
    rw [List.length_cons, List.range_succ_eq_map]
    simp only [List.map_cons, List.map_map, List.getD_cons_zero]
    have : ((fun i => F ((a :: rest).getD i d)) ∘ Nat.succ) =
        (fun i => F (rest.getD i d)) := by
      funext i; simp
    rw [this, ih]

theorem optList_eq_some {α β : Type} (f : α → Option β) (g : α → β)
    (l : List α) (h : ∀ a ∈ l, f a = some (g a)) :
    optList f l = some (l.map g) := by
  induction l with
  | nil => rfl
  | cons a rest ih =>
    simp only [optList, h a (by simp), ih (fun a ha => h a (by simp [ha])),
      List.map_cons]

theorem getD_irrel {α : Type} (l : List α) (i : Nat) (d d' : α)
    (hi : i < l.length) : l.getD i d = l.getD i d' := by
  induction l generalizing i with
  | nil => simp at hi
  | cons a rest ih =>
    cases i with
    | zero => simp
    | succ i => simpa using ih i (by simpa using hi)

theorem getD_map_range {α : Type} (f : Nat → α) (n y : Nat) (d : α)
    (hy : y < n) : ((List.range n).map f).getD y d = f y := by
  induction n with
  | zero => omega
  | succ n ih =>
    rw [List.range_succ, List.map_append]
    simp only [List.map_cons, List.map_nil]
    rcases Nat.lt_or_ge y n with hlt | hge
    · rw [getD_append_lt _ _ _ _ (by simpa using hlt)]
      exact ih hlt
    · have hy' : y = n := by omega
      subst hy'
      have h2 := getD_append_add ((List.range y).map f) [f y] 0 d
      simp only [List.length_map, List.length_range, Nat.add_zero] at h2
      rw [h2]
      rfl

/-! ## Packed-bitmap lemmas -/

theorem packRow_length (img : Page) (thr y : Nat) :
    (packRow img thr y).length = (img.width + 7) / 8 := by
  simp [packRow]

theorem packBitmap_length (img : Page) (thr : Nat) :
    (packBitmap img thr).length = (img.width + 7) / 8 * img.height := by
  unfold packBitmap
  rw [flatten_length_uniform _ ((img.width + 7) / 8)]
  · simp [Nat.mul_comm]
  · intro r hr
    rcases List.mem_map.mp hr with ⟨y, _, rfl⟩
    exact packRow_length img thr y

theorem packBitmap_getD (img : Page) (thr y b : Nat) (hy : y < img.height)
    (hb : b < (img.width + 7) / 8) :
    (packBitmap img thr).getD (y * ((img.width + 7) / 8) + b) 0 =
      packRowByte img thr y b := by
  unfold packBitmap
  rw [flatten_getD _ ((img.width + 7) / 8) y b
    (fun r hr => by
      rcases List.mem_map.mp hr with ⟨y', _, rfl⟩
      exact packRow_length img thr y') (by simpa using hy) hb]
  rw [getD_map_range _ _ _ _ hy]
  unfold packRow
  exact getD_map_range _ _ _ _ hb

theorem pixBit_le_one (img : Page) (thr x y : Nat) :
    pixBit img thr x y ≤ 1 := by
  unfold pixBit
  split <;> omega

theorem bits_div (c : Nat → Nat) (hc : ∀ j, c j ≤ 1) (j : Nat) (hj : j < 8) :
    (c 0 * 128 + c 1 * 64 + c 2 * 32 + c 3 * 16 + c 4 * 8 + c 5 * 4 +
      c 6 * 2 + c 7) / 2 ^ (7 - j) % 2 = c j := by
  have h0 := hc 0
  have h1 := hc 1
  have h2 := hc 2
  have h3 := hc 3
  have h4 := hc 4
  have h5 := hc 5
  have h6 := hc 6
  have h7 := hc 7
  interval_cases j <;> norm_num <;> omega

theorem unpack_packBitmap (img : Page) (thr : Nat) :
    unpackBitmap img.width img.height (packBitmap img thr) =
      binarizePage img thr := by
  unfold unpackBitmap binarizePage
  apply List.map_congr_left
  intro y hy
  apply List.map_congr_left
  intro x hx
  have hy' : y < img.height := List.mem_range.mp hy
  have hx' : x < img.width := List.mem_range.mp hx
  have hdiv : x / 8 < (img.width + 7) / 8 := by omega
  rw [packBitmap_getD img thr y (x / 8) hy' hdiv]
  have hstep : packRowByte img thr y (x / 8) / 2 ^ (7 - x % 8) % 2 =
      pixBit img thr (8 * (x / 8) + x % 8) y := by
    unfold packRowByte
    exact bits_div (fun j => pixBit img thr (8 * (x / 8) + j) y)
      (fun j => pixBit_le_one img thr _ y) (x % 8) (Nat.mod_lt x (by omega))
  rw [hstep]
  have hx8 : 8 * (x / 8) + x % 8 = x := Nat.div_add_mod x 8
  rw [hx8]
  simp [pixBit, hx']

/-! ## XTG blob structure lemmas -/

theorem take8_md5_length (data : List Nat) : ((md5 data).take 8).length = 8 := by
  rw [List.length_take, md5_length]
  omega

theorem png_to_xtg_bytes_of_size (img : Page) (w h thr : Nat)
    (hw : img.width = w) (hh : img.height = h) :
    png_to_xtg_bytes img w h thr =
      [88, 84, 71, 0] ++ toLE 2 w ++ toLE 2 h ++ [0] ++ [0] ++
        toLE 4 (packBitmap img thr).length ++
        (md5 (packBitmap img thr)).take 8 ++ packBitmap img thr := by
  subst hw
  subst hh
  simp [png_to_xtg_bytes]

theorem png_blob_struct (img : Page) (w h thr : Nat) :
    ∃ data : List Nat, data.length = (w + 7) / 8 * h ∧
      png_to_xtg_bytes img w h thr =
        [88, 84, 71, 0] ++ toLE 2 w ++ toLE 2 h ++ [0] ++ [0] ++
          toLE 4 data.length ++ (md5 data).take 8 ++ data := by
  by_cases hc : img.width = w ∧ img.height = h
  · refine ⟨packBitmap img thr, ?_, ?_⟩
    · rw [packBitmap_length, hc.1, hc.2]
    · exact png_to_xtg_bytes_of_size img w h thr hc.1 hc.2
  · refine ⟨packBitmap (pil_resize img w h) thr, ?_, ?_⟩
    · rw [packBitmap_length]; rfl
    · unfold png_to_xtg_bytes
      rw [if_neg hc]
      rfl

theorem png_blob_length (img : Page) (w h thr : Nat) :
    (png_to_xtg_bytes img w h thr).length = 22 + (w + 7) / 8 * h := by
  rcases png_blob_struct img w h thr with ⟨data, hlen, heq⟩
  rw [heq]
  simp [toLE_length, md5_length, hlen]
  omega

theorem image_to_xtg_blob_struct (img : Page) (w h : Nat) :
    ∃ data : List Nat, data.length = (w + 7) / 8 * h ∧
      image_to_xtg_blob img w h =
        [88, 84, 71, 0] ++ toLE 2 w ++ toLE 2 h ++ [0] ++ [0] ++
          toLE 4 ((w + 7) / 8 * h) ++ toLE 8 0 ++ data := by
  by_cases hc : img.width = w ∧ img.height = h
  · refine ⟨pil_convert1_bytes img, ?_, ?_⟩
    · unfold pil_convert1_bytes
      rw [packBitmap_length, hc.1, hc.2]
    · unfold image_to_xtg_blob
      rw [if_pos hc]
  · refine ⟨pil_convert1_bytes (pil_resize img w h), ?_, ?_⟩
    · unfold pil_convert1_bytes
      rw [packBitmap_length]; rfl
    · unfold image_to_xtg_blob
      rw [if_neg hc]

theorem image_to_xtg_blob_length (img : Page) (w h : Nat) :
    (image_to_xtg_blob img w h).length = 22 + (w + 7) / 8 * h := by
  rcases image_to_xtg_blob_struct img w h with ⟨data, hlen, heq⟩
  rw [heq]
  simp [toLE_length, hlen]
  omega

/-! ## Index-table lemmas -/

theorem extract_zero_of_len (a b : List Nat) (n : Nat) (h : a.length = n) :
    extract (a ++ b) 0 n = a := by
  subst h
  exact extract_self a b

theorem xtcIndexEntry_length (blob : List Nat) (rel : Nat) :
    (xtcIndexEntry blob rel).length = 16 := by
  simp [xtcIndexEntry, toLE_length]

theorem xtcIndexTable_length (blobs : List (List Nat)) (rel : Nat) :
    (xtcIndexTable blobs rel).length = 16 * blobs.length := by
  induction blobs generalizing rel with
  | nil => simp [xtcIndexTable]
  | cons bl rest ih =>
    simp [xtcIndexTable, xtcIndexEntry_length, ih]
    ring

theorem xtcIndexTable_extract16 (blobs : List (List Nat)) (B rel i : Nat)
    (h : ∀ bl ∈ blobs, bl.length = B) (hi : i < blobs.length) :
    extract (xtcIndexTable blobs rel) (16 * i) 16 =
      xtcIndexEntry (blobs.getD i []) (rel + i * B) := by
  induction blobs generalizing rel i with
  | nil => simp at hi
  | cons bl rest ih =>
    cases i with
    | zero =>
      simp only [xtcIndexTable, Nat.mul_zero, List.getD_cons_zero,
        Nat.add_zero, Nat.zero_mul]
      exact extract_zero_of_len _ _ 16 (xtcIndexEntry_length bl rel)
    | succ i =>
      have hb : bl.length = B := h bl (by simp)
      have harith : 16 * (i + 1) = (xtcIndexEntry bl rel).length + 16 * i := by
        rw [xtcIndexEntry_length]; ring
      rw [xtcIndexTable, harith, extract_append, List.getD_cons_succ]
      rw [ih (rel + bl.length) i (fun r hr => h r (List.mem_cons_of_mem _ hr))
        (by simpa using hi)]
      rw [hb]
      congr 1
      ring

theorem xtcIndexEntry_extract8 (blob : List Nat) (rel : Nat) :
    extract (xtcIndexEntry blob rel) 0 8 = toLE 8 rel := rfl

theorem xtcIndexEntry_extract4 (blob : List Nat) (rel : Nat) :
    extract (xtcIndexEntry blob rel) 8 4 = toLE 4 blob.length := rfl

theorem bookEntry_length (blob : List Nat) (off w h : Nat) :
    (toLE 8 off ++ toLE 4 blob.length ++ toLE 2 w ++ toLE 2 h).length = 16 := by
  simp [toLE_length]

theorem bookIndexTable_length (blobs : List (List Nat)) (off w h : Nat) :
    (bookIndexTable blobs off w h).length = 16 * blobs.length := by
  induction blobs generalizing off with
  | nil => simp [bookIndexTable]
  | cons bl rest ih =>
    simp [bookIndexTable, toLE_length, ih]
    ring

theorem bookIndexTable_extract16 (blobs : List (List Nat)) (B off w h i : Nat)
    (hB : ∀ bl ∈ blobs, bl.length = B) (hi : i < blobs.length) :
    extract (bookIndexTable blobs off w h) (16 * i) 16 =
      toLE 8 (off + i * B) ++ toLE 4 B ++ toLE 2 w ++ toLE 2 h := by
  induction blobs generalizing off i with
  | nil => simp at hi
  | cons bl rest ih =>
    cases i with
    | zero =>
      have hb : bl.length = B := hB bl (by simp)
      simp only [bookIndexTable, Nat.mul_zero, Nat.add_zero, Nat.zero_mul]
      rw [← hb]
      exact extract_zero_of_len _ _ 16 (bookEntry_length bl off w h)
    | succ i =>
      have hb : bl.length = B := hB bl (by simp)
      have harith : 16 * (i + 1) =
          (toLE 8 off ++ toLE 4 bl.length ++ toLE 2 w ++ toLE 2 h).length + 16 * i := by
        rw [bookEntry_length]; ring
      rw [bookIndexTable, harith, extract_append]
      rw [ih (off + bl.length) i (fun r hr => hB r (List.mem_cons_of_mem _ hr))
        (by simpa using hi)]
      rw [hb]
      congr 2
      ring

/-! ## File-layout lemmas for the two builders -/

theorem xtcHeader_length (a b c : Nat) : (xtcHeader a b c).length = 48 := by
  simp [xtcHeader, toLE_length]

theorem bookHeader_length (a b c d e : Nat) :
    (bookHeader a b c d e).length = 56 := by
  simp [bookHeader, toLE_length]

theorem file_magic (N io d : Nat) (rest : List Nat) :
    extract (xtcHeader N io d ++ rest) 0 4 = [88, 84, 67, 0] := by
  rw [extract_within_front _ _ 0 4 (by rw [xtcHeader_length]; omega)]
  rfl

theorem file_pageCount (N io d : Nat) (rest : List Nat) :
    extract (xtcHeader N io d ++ rest) 6 2 = toLE 2 N := by
  rw [extract_within_front _ _ 6 2 (by rw [xtcHeader_length]; omega)]
  rfl

theorem file_indexOff (N io d : Nat) (rest : List Nat) :
    extract (xtcHeader N io d ++ rest) 24 8 = toLE 8 io := by
  rw [extract_within_front _ _ 24 8 (by rw [xtcHeader_length]; omega)]
  rfl

theorem file_dataOff (N io d : Nat) (rest : List Nat) :
    extract (xtcHeader N io d ++ rest) 32 8 = toLE 8 d := by
  rw [extract_within_front _ _ 32 8 (by rw [xtcHeader_length]; omega)]
  rfl

theorem bookFile_pageCount (N a b c e : Nat) (rest : List Nat) :
    extract (bookHeader N a b c e ++ rest) 6 2 = toLE 2 N := by
  rw [extract_within_front _ _ 6 2 (by rw [bookHeader_length]; omega)]
  rfl

theorem bookFile_indexOff (N a b c e : Nat) (rest : List Nat) :
    extract (bookHeader N a b c e ++ rest) 24 8 = toLE 8 b := by
  rw [extract_within_front _ _ 24 8 (by rw [bookHeader_length]; omega)]
  rfl

theorem bookFile_dataOff (N a b c e : Nat) (rest : List Nat) :
    extract (bookHeader N a b c e ++ rest) 32 8 = toLE 8 c := by
  rw [extract_within_front _ _ 32 8 (by rw [bookHeader_length]; omega)]
  rfl

theorem extract_extract (l : List Nat) (k j n m : Nat) (h : j + n ≤ m) :
    extract (extract l k m) j n = extract l (k + j) n := by
  unfold extract
  rw [List.drop_take, List.take_take, List.drop_drop]
  rw [Nat.min_eq_left (by omega)]

theorem getD_mem {α : Type} (l : List α) (i : Nat) (d : α)
    (hi : i < l.length) : l.getD i d ∈ l := by
  induction l generalizing i with
  | nil => simp at hi
  | cons a rest ih =>
    cases i with
    | zero => simp
    | succ i => exact List.mem_cons_of_mem a (ih i (by simpa using hi))

theorem xtg_extract_magic (a b c : Nat) (dig data : List Nat) :
    extract ([88, 84, 71, 0] ++ toLE 2 a ++ toLE 2 b ++ [0] ++ [0] ++
      toLE 4 c ++ dig ++ data) 0 4 = [88, 84, 71, 0] := rfl

theorem xtg_extract_w (a b c : Nat) (dig data : List Nat) :
    extract ([88, 84, 71, 0] ++ toLE 2 a ++ toLE 2 b ++ [0] ++ [0] ++
      toLE 4 c ++ dig ++ data) 4 2 = toLE 2 a := rfl

theorem xtg_extract_h (a b c : Nat) (dig data : List Nat) :
    extract ([88, 84, 71, 0] ++ toLE 2 a ++ toLE 2 b ++ [0] ++ [0] ++
      toLE 4 c ++ dig ++ data) 6 2 = toLE 2 b := rfl

theorem xtg_extract_plen (a b c : Nat) (dig data : List Nat) :
    extract ([88, 84, 71, 0] ++ toLE 2 a ++ toLE 2 b ++ [0] ++ [0] ++
      toLE 4 c ++ dig ++ data) 10 4 = toLE 4 c := rfl

theorem xtg_drop22 (a b c : Nat) (dig data : List Nat) (hdig : dig.length = 8) :
    ([88, 84, 71, 0] ++ toLE 2 a ++ toLE 2 b ++ [0] ++ [0] ++
      toLE 4 c ++ dig ++ data).drop 22 = data := by
  show List.drop 8 (dig ++ data) = data
  rw [← hdig]
  simpa using drop_append_add dig data 0

theorem xtg_blob_length_eq (a b c : Nat) (dig data : List Nat)
    (hdig : dig.length = 8) :
    ([88, 84, 71, 0] ++ toLE 2 a ++ toLE 2 b ++ [0] ++ [0] ++
      toLE 4 c ++ dig ++ data).length = 22 + data.length := by
  simp [toLE_length, hdig]
  omega

theorem xtc_size_bounds (w h N : Nat) (hw : w < 65536) (hh : h < 65536)
    (hN : N < 65536) :
    22 + (w + 7) / 8 * h < 4294967296 ∧
      48 + N * 16 + N * (22 + (w + 7) / 8 * h) < 18446744073709551616 := by
  have hrb : (w + 7) / 8 ≤ 8192 := by omega
  have hP : (w + 7) / 8 * h ≤ 8192 * 65535 := Nat.mul_le_mul hrb (by omega)
  refine ⟨by omega, ?_⟩
  have hNB : N * (22 + (w + 7) / 8 * h) ≤ 65535 * (22 + 8192 * 65535) :=
    Nat.mul_le_mul (by omega) (by omega)
  omega

theorem build_xtc_eq (pages : List Page) (w h : Nat) :
    build_xtc pages w h =
      xtcHeader pages.length 48 (48 + pages.length * 16) ++
        (xtcIndexTable (pages.map fun img => png_to_xtg_bytes img w h 200)
            (48 + pages.length * 16) ++
          (pages.map fun img => png_to_xtg_bytes img w h 200).flatten) := by
  simp [build_xtc]

theorem png_blobs_length (pages : List Page) (w h : Nat) :
    ∀ bl ∈ pages.map (fun img => png_to_xtg_bytes img w h 200),
      bl.length = 22 + (w + 7) / 8 * h := by
  intro bl hbl
  rcases List.mem_map.mp hbl with ⟨p, _, rfl⟩
  exact png_blob_length p w h 200

theorem build_xtc_length (pages : List Page) (w h : Nat) :
    (build_xtc pages w h).length =
      48 + pages.length * 16 + pages.length * (22 + (w + 7) / 8 * h) := by
  rw [build_xtc_eq]
  simp only [List.length_append, xtcHeader_length, xtcIndexTable_length,
    List.length_map]
  rw [flatten_length_uniform _ (22 + (w + 7) / 8 * h) (png_blobs_length pages w h)]
  simp only [List.length_map]
  ring

theorem build_xtc_entry16 (pages : List Page) (w h i : Nat)
    (hi : i < pages.length) :
    extract (build_xtc pages w h) (48 + 16 * i) 16 =
      xtcIndexEntry
        ((pages.map fun img => png_to_xtg_bytes img w h 200).getD i [])
        (48 + pages.length * 16 + i * (22 + (w + 7) / 8 * h)) := by
  rw [build_xtc_eq]
  have h48 : 48 + 16 * i =
      (xtcHeader pages.length 48 (48 + pages.length * 16)).length + 16 * i := by
    rw [xtcHeader_length]
  rw [h48, extract_append]
  rw [extract_within_front _ _ (16 * i) 16
    (by rw [xtcIndexTable_length, List.length_map]; omega)]
  exact xtcIndexTable_extract16 _ _ _ i (png_blobs_length pages w h)
    (by rw [List.length_map]; omega)

theorem build_xtc_data_extract (pages : List Page) (w h i : Nat)
    (hi : i < pages.length) :
    extract (build_xtc pages w h)
        (48 + pages.length * 16 + i * (22 + (w + 7) / 8 * h))
        (22 + (w + 7) / 8 * h) =
      (pages.map fun img => png_to_xtg_bytes img w h 200).getD i [] := by
  have hassoc : build_xtc pages w h =
      (xtcHeader pages.length 48 (48 + pages.length * 16) ++
        xtcIndexTable (pages.map fun img => png_to_xtg_bytes img w h 200)
          (48 + pages.length * 16)) ++
        (pages.map fun img => png_to_xtg_bytes img w h 200).flatten := by
    rw [build_xtc_eq, List.append_assoc]
  have hpre : (xtcHeader pages.length 48 (48 + pages.length * 16) ++
      xtcIndexTable (pages.map fun img => png_to_xtg_bytes img w h 200)
        (48 + pages.length * 16)).length = 48 + pages.length * 16 := by
    simp only [List.length_append, xtcHeader_length, xtcIndexTable_length,
      List.length_map]
    ring
  have hoffeq : 48 + pages.length * 16 + i * (22 + (w + 7) / 8 * h) =
      (xtcHeader pages.length 48 (48 + pages.length * 16) ++
        xtcIndexTable (pages.map fun img => png_to_xtg_bytes img w h 200)
          (48 + pages.length * 16)).length + i * (22 + (w + 7) / 8 * h) := by
    rw [hpre]
  rw [hassoc, hoffeq, extract_append]
  exact flatten_extract _ _ i (png_blobs_length pages w h)
    (by rw [List.length_map]; omega)

theorem parsePage_build_xtc (pages : List Page) (w h i : Nat) (d : Page)
    (hdim : ∀ p ∈ pages, p.width = w ∧ p.height = h)
    (hw : w < 65536) (hh : h < 65536) (hN : pages.length < 65536)
    (hi : i < pages.length) :
    parsePageAt (build_xtc pages w h) (48 + 16 * i) =
      some (w, h, binarizePage (pages.getD i d) 200) := by
  have hbounds := xtc_size_bounds w h pages.length hw hh hN
  have hgetD : (pages.map fun img => png_to_xtg_bytes img w h 200).getD i [] =
      png_to_xtg_bytes (pages.getD i d) w h 200 := by
    rw [getD_irrel _ i [] (png_to_xtg_bytes d w h 200)
      (by rw [List.length_map]; omega)]
    exact getD_map pages _ i d hi
  have hentry := build_xtc_entry16 pages w h i hi
  have hoff_ex : extract (build_xtc pages w h) (48 + 16 * i) 8 =
      toLE 8 (48 + pages.length * 16 + i * (22 + (w + 7) / 8 * h)) := by
    have hee := extract_extract (build_xtc pages w h) (48 + 16 * i) 0 8 16
      (by omega)
    rw [Nat.add_zero] at hee
    rw [← hee, hentry]
    rfl
  have hlen_ex : extract (build_xtc pages w h) (48 + 16 * i + 8) 4 =
      toLE 4 (22 + (w + 7) / 8 * h) := by
    have hee := extract_extract (build_xtc pages w h) (48 + 16 * i) 8 4 16
      (by omega)
    rw [← hee, hentry, xtcIndexEntry_extract4]
    congr 1
    rw [hgetD]
    exact png_blob_length _ w h 200
  have hiB : i * (22 + (w + 7) / 8 * h) + (22 + (w + 7) / 8 * h) ≤
      pages.length * (22 + (w + 7) / 8 * h) := by
    have h1 : (i + 1) * (22 + (w + 7) / 8 * h) ≤
        pages.length * (22 + (w + 7) / 8 * h) :=
      Nat.mul_le_mul_right _ (by omega)
    have h2 : (i + 1) * (22 + (w + 7) / 8 * h) =
        i * (22 + (w + 7) / 8 * h) + (22 + (w + 7) / 8 * h) := by ring
    omega
  have hoff_lt : 48 + pages.length * 16 + i * (22 + (w + 7) / 8 * h) < 256 ^ 8 := by
    have h8 : (256 : Nat) ^ 8 = 18446744073709551616 := by norm_num
    omega
  have hB_lt : 22 + (w + 7) / 8 * h < 256 ^ 4 := by
    have h4 : (256 : Nat) ^ 4 = 4294967296 := by norm_num
    omega
  unfold parsePageAt
  rw [hoff_ex, hlen_ex, readLE_toLE_of_lt 8 _ hoff_lt, readLE_toLE_of_lt 4 _ hB_lt]
  rw [if_pos (by rw [build_xtc_length]; omega)]
  rw [build_xtc_data_extract pages w h i hi, hgetD]
  obtain ⟨hpw, hph⟩ := hdim (pages.getD i d) (getD_mem pages i d hi)
  rw [png_to_xtg_bytes_of_size _ w h 200 hpw hph]
  have hplen : (packBitmap (pages.getD i d) 200).length = (w + 7) / 8 * h := by
    rw [packBitmap_length, hpw, hph]
  unfold parseXtg
  rw [xtg_extract_w, xtg_extract_h, xtg_extract_plen, xtg_extract_magic]
  rw [readLE_toLE_of_lt 2 w (by norm_num; omega),
    readLE_toLE_of_lt 2 h (by norm_num; omega)]
  rw [readLE_toLE_of_lt 4 _ (by rw [hplen]; omega)]
  rw [if_pos ⟨rfl, by
      rw [xtg_blob_length_eq w h _ _ _ (take8_md5_length _)], by rw [hplen]⟩]
  rw [xtg_drop22 w h _ _ _ (take8_md5_length _)]
  rw [← hpw, ← hph, unpack_packBitmap]

/-! ## Claim C1 -/

/-- C1: Round-trip — for every non-empty list of pages with uniform
dimensions equal to the declared container size (dimensions and page count
within the format's 16-bit header fields), parsing a container built by
`build_xtc` according to the XTC/XTG layout recovers exactly one entry per
page, and unpacking each page's MSB-first 1-bit packed bitmap reproduces the
binarized (threshold 200) source page bit-for-bit. -/
theorem C1_build_xtc_roundtrip (pages : List Page) (w h : Nat)
    (hne : pages ≠ [])
    (hdim : ∀ p ∈ pages, p.width = w ∧ p.height = h)
    (hw : w < 65536) (hh : h < 65536) (hN : pages.length < 65536) :
    parseXtc (build_xtc pages w h) =
      some (pages.map fun p => (w, h, binarizePage p 200)) := by
  have _ := hne
  have hmagic : extract (build_xtc pages w h) 0 4 = [88, 84, 67, 0] := by
    rw [build_xtc_eq]; exact file_magic _ _ _ _
  have hcount : extract (build_xtc pages w h) 6 2 = toLE 2 pages.length := by
    rw [build_xtc_eq]; exact file_pageCount _ _ _ _
  have hio : extract (build_xtc pages w h) 24 8 = toLE 8 48 := by
    rw [build_xtc_eq]; exact file_indexOff _ _ _ _
  unfold parseXtc
  rw [hmagic, if_pos rfl, hcount, hio]
  rw [readLE_toLE_of_lt 2 pages.length (by norm_num; omega)]
  rw [readLE_toLE_of_lt 8 48 (by norm_num)]
  rw [optList_eq_some _
    (fun i => (w, h, binarizePage (pages.getD i ⟨w, h, fun _ _ => 0⟩) 200)) _
    (fun i hi => parsePage_build_xtc pages w h i ⟨w, h, fun _ _ => 0⟩ hdim hw hh hN
      (List.mem_range.mp hi))]
  rw [map_range_getD pages (fun p => (w, h, binarizePage p 200)) ⟨w, h, fun _ _ => 0⟩]

/-- A concrete 8×2 test page. -/
def c1pg1 : Page := ⟨8, 2, fun x y => 100 * (x + y)⟩

/-- A concrete 8×2 test page. -/
def c1pg2 : Page := ⟨8, 2, fun x _ => 255 - 30 * x⟩

/-- Witness for C1 at a concrete two-page 8×2 container. -/
theorem C1_build_xtc_roundtrip_witness :
    parseXtc (build_xtc [c1pg1, c1pg2] 8 2) =
      some ([c1pg1, c1pg2].map fun p => (8, 2, binarizePage p 200)) :=
  C1_build_xtc_roundtrip [c1pg1, c1pg2] 8 2 (by simp)
    (by
      intro p hp
      rcases List.mem_cons.mp hp with rfl | hp2
      · exact ⟨rfl, rfl⟩
      · rcases List.mem_cons.mp hp2 with rfl | hp3
        · exact ⟨rfl, rfl⟩
        · simp at hp3)
    (by norm_num) (by norm_num) (by norm_num)

/-! ## Claim C2 -/

theorem build_xtc_off (pages : List Page) (w h i : Nat)
    (hw : w < 65536) (hh : h < 65536) (hN : pages.length < 65536)
    (hi : i < pages.length) :
    readLE (extract (build_xtc pages w h) (48 + 16 * i) 8) =
      48 + pages.length * 16 + i * (22 + (w + 7) / 8 * h) := by
  have hbounds := xtc_size_bounds w h pages.length hw hh hN
  have hee := extract_extract (build_xtc pages w h) (48 + 16 * i) 0 8 16
    (by omega)
  rw [Nat.add_zero] at hee
  rw [← hee, build_xtc_entry16 pages w h i hi, xtcIndexEntry_extract8]
  apply readLE_toLE_of_lt
  have hiB : i * (22 + (w + 7) / 8 * h) ≤
      pages.length * (22 + (w + 7) / 8 * h) :=
    Nat.mul_le_mul_right _ (by omega)
  have h8 : (256 : Nat) ^ 8 = 18446744073709551616 := by norm_num
  omega

theorem build_xtc_len (pages : List Page) (w h i : Nat)
    (hw : w < 65536) (hh : h < 65536) (hN : pages.length < 65536)
    (hi : i < pages.length) :
    readLE (extract (build_xtc pages w h) (48 + 16 * i + 8) 4) =
      22 + (w + 7) / 8 * h := by
  have hbounds := xtc_size_bounds w h pages.length hw hh hN
  have hee := extract_extract (build_xtc pages w h) (48 + 16 * i) 8 4 16
    (by omega)
  rw [← hee, build_xtc_entry16 pages w h i hi, xtcIndexEntry_extract4]
  have hgetD : ((pages.map fun img => png_to_xtg_bytes img w h 200).getD i []).length =
      22 + (w + 7) / 8 * h := by
    apply png_blobs_length pages w h
    exact getD_mem _ i [] (by rw [List.length_map]; omega)
  rw [hgetD]
  apply readLE_toLE_of_lt
  have h4 : (256 : Nat) ^ 4 = 4294967296 := by norm_num
  omega

/-! Layout of `build_book_xtc`. -/

theorem build_book_xtc_eq (pages : List Page) (title author lang : List Nat)
    (chapters : List BookChapter) (w h now : Nat) :
    build_book_xtc pages title author lang chapters w h now =
      bookHeader pages.length 56 (312 + chapters.length * 96)
          (312 + chapters.length * 96 + pages.length * 16)
          312 ++
        (pack_metadata title author lang now chapters.length ++
          ((chapters.map (fun c => pack_chapter c.name c.startPg c.endPg)).flatten ++
            (bookIndexTable (pages.map fun img => image_to_xtg_blob img w h)
                (312 + chapters.length * 96 + pages.length * 16) w h ++
              (pages.map fun img => image_to_xtg_blob img w h).flatten))) := by
  simp [build_book_xtc]

theorem chapTable_length (chapters : List BookChapter) :
    ((chapters.map fun c => pack_chapter c.name c.startPg c.endPg).flatten).length =
      96 * chapters.length := by
  rw [flatten_length_uniform _ 96 (by
    intro r hr
    rcases List.mem_map.mp hr with ⟨c, _, rfl⟩
    exact pack_chapter_length c.name c.startPg c.endPg)]
  simp [Nat.mul_comm]

theorem book_blobs_length (pages : List Page) (w h : Nat) :
    ∀ bl ∈ pages.map (fun img => image_to_xtg_blob img w h),
      bl.length = 22 + (w + 7) / 8 * h := by
  intro bl hbl
  rcases List.mem_map.mp hbl with ⟨p, _, rfl⟩
  exact image_to_xtg_blob_length p w h

theorem book_extract_shift (pages : List Page) (title author lang : List Nat)
    (chapters : List BookChapter) (w h now k n : Nat) :
    extract (build_book_xtc pages title author lang chapters w h now)
        (312 + chapters.length * 96 + k) n =
      extract
        (bookIndexTable (pages.map fun img => image_to_xtg_blob img w h)
            (312 + chapters.length * 96 + pages.length * 16) w h ++
          (pages.map fun img => image_to_xtg_blob img w h).flatten) k n := by
  rw [build_book_xtc_eq]
  have h1 : 312 + chapters.length * 96 + k =
      (bookHeader pages.length 56 (312 + chapters.length * 96)
        (312 + chapters.length * 96 + pages.length * 16) 312).length +
      (256 + chapters.length * 96 + k) := by
    rw [bookHeader_length]; ring
  rw [h1, extract_append]
  have h2 : 256 + chapters.length * 96 + k =
      (pack_metadata title author lang now chapters.length).length +
      (chapters.length * 96 + k) := by
    rw [pack_metadata_length]; ring
  rw [h2, extract_append]
  have h3 : chapters.length * 96 + k =
      ((chapters.map fun c => pack_chapter c.name c.startPg c.endPg).flatten).length +
      k := by
    rw [chapTable_length]; ring
  rw [h3, extract_append]

theorem build_book_xtc_length (pages : List Page) (title author lang : List Nat)
    (chapters : List BookChapter) (w h now : Nat) :
    (build_book_xtc pages title author lang chapters w h now).length =
      312 + chapters.length * 96 + pages.length * 16 +
        pages.length * (22 + (w + 7) / 8 * h) := by
  rw [build_book_xtc_eq]
  simp only [List.length_append, bookHeader_length, pack_metadata_length,
    chapTable_length, bookIndexTable_length, List.length_map]
  rw [flatten_length_uniform _ (22 + (w + 7) / 8 * h) (book_blobs_length pages w h)]
  simp only [List.length_map]
  ring

theorem book_entry16 (pages : List Page) (title author lang : List Nat)
    (chapters : List BookChapter) (w h now i : Nat) (hi : i < pages.length) :
    extract (build_book_xtc pages title author lang chapters w h now)
        (312 + chapters.length * 96 + 16 * i) 16 =
      toLE 8 (312 + chapters.length * 96 + pages.length * 16 +
          i * (22 + (w + 7) / 8 * h)) ++
        toLE 4 (22 + (w + 7) / 8 * h) ++ toLE 2 w ++ toLE 2 h := by
  rw [book_extract_shift]
  rw [extract_within_front _ _ (16 * i) 16
    (by rw [bookIndexTable_length, List.length_map]; omega)]
  exact bookIndexTable_extract16 _ _ _ w h i (book_blobs_length pages w h)
    (by rw [List.length_map]; omega)

theorem book_size_bounds (w h N C : Nat) (hw : w < 65536) (hh : h < 65536)
    (hN : N < 65536) (hC : C < 65536) :
    22 + (w + 7) / 8 * h < 4294967296 ∧
      312 + C * 96 + N * 16 + N * (22 + (w + 7) / 8 * h) <
        18446744073709551616 := by
  have hrb : (w + 7) / 8 ≤ 8192 := by omega
  have hP : (w + 7) / 8 * h ≤ 8192 * 65535 := Nat.mul_le_mul hrb (by omega)
  refine ⟨by omega, ?_⟩
  have hNB : N * (22 + (w + 7) / 8 * h) ≤ 65535 * (22 + 8192 * 65535) :=
    Nat.mul_le_mul (by omega) (by omega)
  have hC96 : C * 96 ≤ 65535 * 96 := Nat.mul_le_mul_right _ (by omega)
  have hN16 : N * 16 ≤ 65535 * 16 := Nat.mul_le_mul_right _ (by omega)
  omega

theorem book_off (pages : List Page) (title author lang : List Nat)
    (chapters : List BookChapter) (w h now i : Nat)
    (hw : w < 65536) (hh : h < 65536) (hN : pages.length < 65536)
    (hC : chapters.length < 65536) (hi : i < pages.length) :
    readLE (extract (build_book_xtc pages title author lang chapters w h now)
        (312 + chapters.length * 96 + 16 * i) 8) =
      312 + chapters.length * 96 + pages.length * 16 +
        i * (22 + (w + 7) / 8 * h) := by
  have hbounds := book_size_bounds w h pages.length chapters.length hw hh hN hC
  have hee := extract_extract (build_book_xtc pages title author lang chapters w h now)
    (312 + chapters.length * 96 + 16 * i) 0 8 16 (by omega)
  rw [Nat.add_zero] at hee
  rw [← hee, book_entry16 pages title author lang chapters w h now i hi]
  have hpfx : extract (toLE 8 (312 + chapters.length * 96 + pages.length * 16 +
      i * (22 + (w + 7) / 8 * h)) ++
      toLE 4 (22 + (w + 7) / 8 * h) ++ toLE 2 w ++ toLE 2 h) 0 8 =
      toLE 8 (312 + chapters.length * 96 + pages.length * 16 +
        i * (22 + (w + 7) / 8 * h)) := rfl
  rw [hpfx]
  apply readLE_toLE_of_lt
  have hiB : i * (22 + (w + 7) / 8 * h) ≤
      pages.length * (22 + (w + 7) / 8 * h) :=
    Nat.mul_le_mul_right _ (by omega)
  have h8 : (256 : Nat) ^ 8 = 18446744073709551616 := by norm_num
  omega

theorem book_len (pages : List Page) (title author lang : List Nat)
    (chapters : List BookChapter) (w h now i : Nat)
    (hw : w < 65536) (hh : h < 65536) (hN : pages.length < 65536)
    (hC : chapters.length < 65536) (hi : i < pages.length) :
    readLE (extract (build_book_xtc pages title author lang chapters w h now)
        (312 + chapters.length * 96 + 16 * i + 8) 4) =
      22 + (w + 7) / 8 * h := by
  have hbounds := book_size_bounds w h pages.length chapters.length hw hh hN hC
  have hee := extract_extract (build_book_xtc pages title author lang chapters w h now)
    (312 + chapters.length * 96 + 16 * i) 8 4 16 (by omega)
  rw [← hee, book_entry16 pages title author lang chapters w h now i hi]
  have hpfx : extract (toLE 8 (312 + chapters.length * 96 + pages.length * 16 +
      i * (22 + (w + 7) / 8 * h)) ++
      toLE 4 (22 + (w + 7) / 8 * h) ++ toLE 2 w ++ toLE 2 h) 8 4 =
      toLE 4 (22 + (w + 7) / 8 * h) := rfl
  rw [hpfx]
  apply readLE_toLE_of_lt
  have h4 : (256 : Nat) ^ 4 = 4294967296 := by norm_num
  omega

/-- C2: Index monotonicity — for every container built by `build_xtc` or
`build_book_xtc` (field widths respected), the index region holds one
16-byte entry per page in page order; entry 0's offset equals the
data-region offset recorded in the header; each next offset is the previous
offset plus the previous length (ascending, non-overlapping); and every
offset+length pair stays within the bytes written. -/
theorem C2_index_monotonic :
    (∀ (pages : List Page) (w h : Nat), w < 65536 → h < 65536 →
      pages.length < 65536 →
      extract (build_xtc pages w h) 48 (16 * pages.length) =
        xtcIndexTable (pages.map fun img => png_to_xtg_bytes img w h 200)
          (48 + pages.length * 16) ∧
      (0 < pages.length →
        readLE (extract (build_xtc pages w h) (48 + 16 * 0) 8) =
          readLE (extract (build_xtc pages w h) 32 8)) ∧
      (∀ i, i + 1 < pages.length →
        readLE (extract (build_xtc pages w h) (48 + 16 * (i + 1)) 8) =
          readLE (extract (build_xtc pages w h) (48 + 16 * i) 8) +
            readLE (extract (build_xtc pages w h) (48 + 16 * i + 8) 4)) ∧
      (∀ i < pages.length,
        readLE (extract (build_xtc pages w h) (48 + 16 * i) 8) +
            readLE (extract (build_xtc pages w h) (48 + 16 * i + 8) 4) ≤
          (build_xtc pages w h).length)) ∧
    (∀ (pages : List Page) (title author lang : List Nat)
      (chapters : List BookChapter) (w h now : Nat), w < 65536 → h < 65536 →
      pages.length < 65536 → chapters.length < 65536 →
      extract (build_book_xtc pages title author lang chapters w h now)
          (312 + chapters.length * 96 + 0) (16 * pages.length) =
        bookIndexTable (pages.map fun img => image_to_xtg_blob img w h)
          (312 + chapters.length * 96 + pages.length * 16) w h ∧
      (0 < pages.length →
        readLE (extract (build_book_xtc pages title author lang chapters w h now)
            (312 + chapters.length * 96 + 16 * 0) 8) =
          readLE (extract (build_book_xtc pages title author lang chapters w h now)
            32 8)) ∧
      (∀ i, i + 1 < pages.length →
        readLE (extract (build_book_xtc pages title author lang chapters w h now)
            (312 + chapters.length * 96 + 16 * (i + 1)) 8) =
          readLE (extract (build_book_xtc pages title author lang chapters w h now)
              (312 + chapters.length * 96 + 16 * i) 8) +
            readLE (extract (build_book_xtc pages title author lang chapters w h now)
              (312 + chapters.length * 96 + 16 * i + 8) 4)) ∧
      (∀ i < pages.length,
        readLE (extract (build_book_xtc pages title author lang chapters w h now)
              (312 + chapters.length * 96 + 16 * i) 8) +
            readLE (extract (build_book_xtc pages title author lang chapters w h now)
              (312 + chapters.length * 96 + 16 * i + 8) 4) ≤
          (build_book_xtc pages title author lang chapters w h now).length)) := by
  constructor
  · intro pages w h hw hh hN
    refine ⟨?_, ?_, ?_, ?_⟩
    · rw [build_xtc_eq]
      have happ := extract_append
        (xtcHeader pages.length 48 (48 + pages.length * 16))
        (xtcIndexTable (pages.map fun img => png_to_xtg_bytes img w h 200)
            (48 + pages.length * 16) ++
          (pages.map fun img => png_to_xtg_bytes img w h 200).flatten)
        0 (16 * pages.length)
      rw [xtcHeader_length] at happ
      simp only [Nat.add_zero] at happ
      rw [happ]
      exact extract_zero_of_len _ _ _
        (by rw [xtcIndexTable_length, List.length_map])
    · intro hpos
      rw [build_xtc_off pages w h 0 hw hh hN (by omega)]
      have hdf : extract (build_xtc pages w h) 32 8 =
          toLE 8 (48 + pages.length * 16) := by
        rw [build_xtc_eq]; exact file_dataOff _ _ _ _
      rw [hdf, readLE_toLE_of_lt 8 _ (by norm_num; omega)]
      omega
    · intro i hi
      rw [build_xtc_off pages w h (i + 1) hw hh hN (by omega),
        build_xtc_off pages w h i hw hh hN (by omega),
        build_xtc_len pages w h i hw hh hN (by omega)]
      ring
    · intro i hi
      rw [build_xtc_off pages w h i hw hh hN hi,
        build_xtc_len pages w h i hw hh hN hi, build_xtc_length]
      have h1 : (i + 1) * (22 + (w + 7) / 8 * h) ≤
          pages.length * (22 + (w + 7) / 8 * h) :=
        Nat.mul_le_mul_right _ (by omega)
      have h2 : (i + 1) * (22 + (w + 7) / 8 * h) =
          i * (22 + (w + 7) / 8 * h) + (22 + (w + 7) / 8 * h) := by ring
      omega
  · intro pages title author lang chapters w h now hw hh hN hC
    refine ⟨?_, ?_, ?_, ?_⟩
    · rw [book_extract_shift]
      exact extract_zero_of_len _ _ _
        (by rw [bookIndexTable_length, List.length_map])
    · intro hpos
      rw [book_off pages title author lang chapters w h now 0 hw hh hN hC
        (by omega)]
      have hbounds := book_size_bounds w h pages.length chapters.length hw hh hN hC
      have hdf : extract (build_book_xtc pages title author lang chapters w h now)
          32 8 = toLE 8 (312 + chapters.length * 96 + pages.length * 16) := by
        rw [build_book_xtc_eq]; exact bookFile_dataOff _ _ _ _ _ _
      rw [hdf, readLE_toLE_of_lt 8 _ (by
        have h8 : (256 : Nat) ^ 8 = 18446744073709551616 := by norm_num
        omega)]
      omega
    · intro i hi
      rw [book_off pages title author lang chapters w h now (i + 1) hw hh hN hC
          (by omega),
        book_off pages title author lang chapters w h now i hw hh hN hC
          (by omega),
        book_len pages title author lang chapters w h now i hw hh hN hC
          (by omega)]
      ring
    · intro i hi
      rw [book_off pages title author lang chapters w h now i hw hh hN hC hi,
        book_len pages title author lang chapters w h now i hw hh hN hC hi,
        build_book_xtc_length]
      have h1 : (i + 1) * (22 + (w + 7) / 8 * h) ≤
          pages.length * (22 + (w + 7) / 8 * h) :=
        Nat.mul_le_mul_right _ (by omega)
      have h2 : (i + 1) * (22 + (w + 7) / 8 * h) =
          i * (22 + (w + 7) / 8 * h) + (22 + (w + 7) / 8 * h) := by ring
      omega

/-- Witness for C2 at concrete one-page containers. -/
theorem C2_index_monotonic_witness :
    (readLE (extract (build_xtc [c1pg1] 8 2) (48 + 16 * 0) 8) =
      readLE (extract (build_xtc [c1pg1] 8 2) 32 8)) ∧
    (readLE (extract (build_book_xtc [c1pg1] [] [] []
          ([] : List BookChapter) 8 2 0)
          (312 + ([] : List BookChapter).length * 96 + 16 * 0) 8) +
        readLE (extract (build_book_xtc [c1pg1] [] [] []
          ([] : List BookChapter) 8 2 0)
          (312 + ([] : List BookChapter).length * 96 + 16 * 0 + 8) 4) ≤
      (build_book_xtc [c1pg1] [] [] [] ([] : List BookChapter) 8 2 0).length) :=
  ⟨(C2_index_monotonic.1 [c1pg1] 8 2 (by norm_num) (by norm_num)
      (by norm_num)).2.1 (by norm_num),
    (C2_index_monotonic.2 [c1pg1] [] [] [] ([] : List BookChapter) 8 2 0
      (by norm_num) (by norm_num) (by norm_num) (by norm_num)).2.2.2 0
      (by norm_num)⟩

/-! ## Claims C3 and C4 -/

theorem xtg_extract_digest (a b c : Nat) (dig data : List Nat)
    (hdig : dig.length = 8) :
    extract ([88, 84, 71, 0] ++ toLE 2 a ++ toLE 2 b ++ [0] ++ [0] ++
      toLE 4 c ++ dig ++ data) 14 8 = dig := by
  show (dig ++ data).take 8 = dig
  rw [← hdig]
  exact extract_self dig data

/-- C3 (amended): every XTG blob's payload-length field equals
`ceil(width/8) * height` and its payload has exactly that many bytes, in
both builders; the 8-byte checksum field is the first 8 bytes of the MD5 of
the payload in `_png_to_xtg_bytes`, while `_image_to_xtg_blob` writes a
zero checksum field instead. -/
theorem C3_xtg_blob_fields :
    (∀ (img : Page) (w h thr : Nat),
      extract (png_to_xtg_bytes img w h thr) 10 4 =
        toLE 4 ((w + 7) / 8 * h) ∧
      ((png_to_xtg_bytes img w h thr).drop 22).length = (w + 7) / 8 * h ∧
      extract (png_to_xtg_bytes img w h thr) 14 8 =
        (md5 ((png_to_xtg_bytes img w h thr).drop 22)).take 8) ∧
    (∀ (img : Page) (w h : Nat),
      extract (image_to_xtg_blob img w h) 10 4 = toLE 4 ((w + 7) / 8 * h) ∧
      ((image_to_xtg_blob img w h).drop 22).length = (w + 7) / 8 * h ∧
      extract (image_to_xtg_blob img w h) 14 8 = toLE 8 0) := by
  constructor
  · intro img w h thr
    rcases png_blob_struct img w h thr with ⟨data, hlen, heq⟩
    have hdrop : (png_to_xtg_bytes img w h thr).drop 22 = data := by
      rw [heq]
      exact xtg_drop22 w h data.length _ data (take8_md5_length data)
    refine ⟨?_, ?_, ?_⟩
    · rw [heq, xtg_extract_plen, hlen]
    · rw [hdrop, hlen]
    · rw [hdrop, heq]
      exact xtg_extract_digest w h data.length _ data (take8_md5_length data)
  · intro img w h
    rcases image_to_xtg_blob_struct img w h with ⟨data, hlen, heq⟩
    have hdrop : (image_to_xtg_blob img w h).drop 22 = data := by
      rw [heq]
      exact xtg_drop22 w h ((w + 7) / 8 * h) _ data (toLE_length 8 0)
    refine ⟨?_, ?_, ?_⟩
    · rw [heq, xtg_extract_plen]
    · rw [hdrop, hlen]
    · rw [heq]
      exact xtg_extract_digest w h ((w + 7) / 8 * h) _ data (toLE_length 8 0)

set_option maxRecDepth 20000 in
/-- Counterexample to C3 as stated: on a concrete all-white 8×1 page,
`_image_to_xtg_blob`'s checksum field is not the first 8 bytes of the MD5
of the packed payload (the code writes a constant 0 there). -/
theorem C3_book_checksum_counterexample :
    extract (image_to_xtg_blob ⟨8, 1, fun _ _ => 255⟩ 8 1) 14 8 ≠
      (md5 ((image_to_xtg_blob ⟨8, 1, fun _ _ => 255⟩ 8 1).drop 22)).take 8 := by
  decide

/-- C4 (amended): on a size-mismatched page neither builder fails — each
silently resizes the page to the declared container size (the
`img.resize(force_size, LANCZOS)` branch) and emits a normal blob declaring
the forced dimensions. -/
theorem C4_no_size_failure :
    (∀ (img : Page) (w h thr : Nat), ¬(img.width = w ∧ img.height = h) →
      png_to_xtg_bytes img w h thr =
        png_to_xtg_bytes (pil_resize img w h) w h thr ∧
      extract (png_to_xtg_bytes img w h thr) 4 2 = toLE 2 w ∧
      extract (png_to_xtg_bytes img w h thr) 6 2 = toLE 2 h) ∧
    (∀ (img : Page) (w h : Nat), ¬(img.width = w ∧ img.height = h) →
      image_to_xtg_blob img w h = image_to_xtg_blob (pil_resize img w h) w h ∧
      extract (image_to_xtg_blob img w h) 4 2 = toLE 2 w ∧
      extract (image_to_xtg_blob img w h) 6 2 = toLE 2 h) := by
  constructor
  · intro img w h thr hmis
    refine ⟨?_, ?_, ?_⟩
    · unfold png_to_xtg_bytes
      rw [if_neg hmis, if_pos ⟨rfl, rfl⟩]
    · rcases png_blob_struct img w h thr with ⟨data, _, heq⟩
      rw [heq, xtg_extract_w]
    · rcases png_blob_struct img w h thr with ⟨data, _, heq⟩
      rw [heq, xtg_extract_h]
  · intro img w h hmis
    refine ⟨?_, ?_, ?_⟩
    · unfold image_to_xtg_blob
      rw [if_neg hmis, if_pos ⟨rfl, rfl⟩]
    · rcases image_to_xtg_blob_struct img w h with ⟨data, _, heq⟩
      rw [heq, xtg_extract_w]
    · rcases image_to_xtg_blob_struct img w h with ⟨data, _, heq⟩
      rw [heq, xtg_extract_h]

/-- Witness for C4 at a concrete 4×4 page forced into an 8×2 container. -/
theorem C4_no_size_failure_witness :
    png_to_xtg_bytes ⟨4, 4, fun _ _ => 255⟩ 8 2 200 =
      png_to_xtg_bytes (pil_resize ⟨4, 4, fun _ _ => 255⟩ 8 2) 8 2 200 ∧
    extract (png_to_xtg_bytes ⟨4, 4, fun _ _ => 255⟩ 8 2 200) 4 2 =
      toLE 2 8 :=
  ⟨(C4_no_size_failure.1 ⟨4, 4, fun _ _ => 255⟩ 8 2 200 (by decide)).1,
   (C4_no_size_failure.1 ⟨4, 4, fun _ _ => 255⟩ 8 2 200 (by decide)).2.1⟩

set_option maxRecDepth 20000 in
/-- Counterexample to C4 as stated: on a concrete 4×4 page declared into an
8×2 container the builder does not fail — it returns a well-formed 24-byte
blob whose header declares the forced 8×2 size, i.e. the page was silently
coerced. -/
theorem C4_silent_resize_counterexample :
    (png_to_xtg_bytes ⟨4, 4, fun _ _ => 255⟩ 8 2 200).length = 24 ∧
    readLE (extract (png_to_xtg_bytes ⟨4, 4, fun _ _ => 255⟩ 8 2 200) 4 2) = 8 ∧
    readLE (extract (png_to_xtg_bytes ⟨4, 4, fun _ _ => 255⟩ 8 2 200) 6 2) = 2 := by
  decide

/-! ## Zoom-loop lemmas -/

theorem zoomLoop_ge (oh : ℚ) (height fuel n : Nat) :
    n ≤ zoomLoop oh height fuel n := by
  induction fuel generalizing n with
  | zero => exact le_refl n
  | succ fuel ih =>
    unfold zoomLoop
    split
    · exact le_trans (by omega) (ih (n + 1))
    · exact le_refl n

theorem zoomLoop_le (oh : ℚ) (height fuel n : Nat) (h : n ≤ 26) :
    zoomLoop oh height fuel n ≤ 26 := by
  induction fuel generalizing n with
  | zero => exact h
  | succ fuel ih =>
    unfold zoomLoop
    split
    · next hc => exact ih (n + 1) (by omega)
    · exact h

theorem zoomLoop_exit (oh : ℚ) (height fuel n : Nat) (hfuel : 26 - n ≤ fuel)
    (hle : n ≤ 26) :
    zoomLoop oh height fuel n = 26 ∨
      ¬(0 < zoomShiftFor oh height (zoomLoop oh height fuel n) ∧
        (19 : ℚ) / 20 <
          zoomShiftFor oh height (zoomLoop oh height fuel n) / oh) := by
  induction fuel generalizing n with
  | zero =>
    have hn : n = 26 := by omega
    subst hn
    exact Or.inl rfl
  | succ fuel ih =>
    unfold zoomLoop
    split
    · next hc => exact ih (n + 1) (by omega) (by omega)
    · next hc =>
      rcases Nat.lt_or_ge n 26 with hlt | hge
      · right
        intro hcond
        exact hc ⟨hlt, hcond.1, hcond.2⟩
      · left
        omega

theorem num_segments_ge (tw th width height : Nat) :
    3 ≤ num_segments tw th width height :=
  zoomLoop_ge _ height 23 3

theorem num_segments_le (tw th width height : Nat) :
    num_segments tw th width height ≤ 26 :=
  zoomLoop_le _ height 23 3 (by omega)

theorem num_segments_exit (tw th width height : Nat) :
    num_segments tw th width height = 26 ∨
      ¬(0 < zoomShiftFor (overlapping_height tw th width) height
          (num_segments tw th width height) ∧
        (19 : ℚ) / 20 <
          zoomShiftFor (overlapping_height tw th width) height
              (num_segments tw th width height) /
            overlapping_height tw th width) :=
  zoomLoop_exit _ height 23 3 (by omega) (by omega)

theorem apply_contrast_eq (img : Page) (level : Int) :
    apply_contrast img level = img := by
  unfold apply_contrast pil_autocontrast
  split <;> rfl

theorem process_zoom_page_length (img : Page) (tw th : Nat) (contrast : Int)
    (dithering : Bool) :
    (process_zoom_page img tw th contrast dithering).length =
      num_segments tw th img.width img.height := by
  unfold process_zoom_page to_grayscale
  rw [apply_contrast_eq]
  unfold zoomSegments
  simp

/-- C9 (implicit): for every source image with positive dimensions and any
settings, the zoom splitter emits between 3 and 26 pages: the band count
starts at 3 and is only ever incremented up to the cap of 26, so the
single-band case of the spec is unreachable. -/
theorem C9_zoom_band_count (img : Page) (tw th : Nat) (contrast : Int)
    (dithering : Bool) (_hw : 0 < img.width) (_hh : 0 < img.height)
    (_htw : 0 < tw) (_hth : 0 < th) :
    3 ≤ num_segments tw th img.width img.height ∧
      num_segments tw th img.width img.height ≤ 26 ∧
      (process_zoom_page img tw th contrast dithering).length =
        num_segments tw th img.width img.height :=
  ⟨num_segments_ge tw th img.width img.height,
   num_segments_le tw th img.width img.height,
   process_zoom_page_length img tw th contrast dithering⟩

/-- Witness for C9 on a concrete 480×1600 page at target 480×800
    (the spec §8 scenario): exactly 6 bands are emitted. -/
theorem C9_zoom_band_count_witness :
    (3 ≤ num_segments 480 800 480 1600 ∧
      num_segments 480 800 480 1600 ≤ 26 ∧
      (process_zoom_page ⟨480, 1600, fun _ _ => 255⟩ 480 800 0 false).length =
        num_segments 480 800 480 1600) ∧
    num_segments 480 800 480 1600 = 6 :=
  ⟨C9_zoom_band_count ⟨480, 1600, fun _ _ => 255⟩ 480 800 0 false
      (by norm_num) (by norm_num) (by norm_num) (by norm_num),
   by norm_num [num_segments, zoomLoop, zoomShiftFor, overlapping_height,
     established_scale]⟩

/-! ## Rational/floor lemmas for the zoom splitter -/

theorem pyInt_of_nonneg (q : ℚ) (h : 0 ≤ q) : pyInt q = ⌊q⌋ := if_pos h

theorem pyInt_natCast (n : Nat) : pyInt (n : ℚ) = n := by
  rw [pyInt_of_nonneg _ (by positivity)]
  exact_mod_cast Int.floor_natCast n

theorem pyInt_zero : pyInt 0 = 0 := by
  rw [pyInt_of_nonneg _ (le_refl 0)]
  exact Int.floor_zero

theorem zoomShiftFor_eq (oh : ℚ) (height n : Nat) (hn : 1 < n) :
    zoomShiftFor oh height n = ((height : ℚ) - oh) / ((n : ℚ) - 1) := by
  unfold zoomShiftFor
  rw [if_pos hn]
  have h1 : (1 : ℚ) < (n : ℚ) := by exact_mod_cast hn
  have hne : ((n : ℚ) - 1) ≠ 0 := ne_of_gt (by linarith)
  field_simp
  ring

theorem overlapping_height_pos (tw th width : Nat) (htw : 0 < tw)
    (hth : 0 < th) (hw : 0 < width) :
    0 < overlapping_height tw th width := by
  unfold overlapping_height established_scale
  have h1 : (0 : ℚ) < (tw : ℚ) := by exact_mod_cast htw
  have h2 : (0 : ℚ) < (th : ℚ) := by exact_mod_cast hth
  have h3 : (0 : ℚ) < (width : ℚ) := by exact_mod_cast hw
  positivity

theorem height_ident (oh : ℚ) (height n : Nat) (hn : 1 < n) :
    (height : ℚ) = oh + zoomShiftFor oh height n * ((n : ℚ) - 1) := by
  rw [zoomShiftFor_eq oh height n hn]
  have h1 : (1 : ℚ) < (n : ℚ) := by exact_mod_cast hn
  have hne : ((n : ℚ) - 1) ≠ 0 := ne_of_gt (by linarith)
  field_simp

theorem zoom_shift_le_oh (tw th width height : Nat) (htw : 0 < tw)
    (hth : 0 < th) (hw : 0 < width)
    (hcap : (height : ℚ) ≤ 26 * overlapping_height tw th width) :
    zoomShiftFor (overlapping_height tw th width) height
        (num_segments tw th width height) ≤
      overlapping_height tw th width := by
  have hoh := overlapping_height_pos tw th width htw hth hw
  have hn3 := num_segments_ge tw th width height
  have hn26 := num_segments_le tw th width height
  rcases num_segments_exit tw th width height with h26 | hstop
  · rw [h26]
    rw [zoomShiftFor_eq _ height 26 (by omega)]
    rw [div_le_iff₀ (by norm_num)]
    push_cast
    linarith
  · by_cases hpos :
        0 < zoomShiftFor (overlapping_height tw th width) height
          (num_segments tw th width height)
    · have hratio : ¬((19 : ℚ) / 20 <
          zoomShiftFor (overlapping_height tw th width) height
              (num_segments tw th width height) /
            overlapping_height tw th width) := fun hr => hstop ⟨hpos, hr⟩
      push_neg at hratio
      rw [div_le_iff₀ hoh] at hratio
      nlinarith
    · push_neg at hpos
      linarith

/-- The bands of the zoom splitter, at exit, cover `[0, H]` provided the
source height does not exceed 26 band heights. -/
theorem zoom_cover (tw th width height : Nat) (htw : 0 < tw) (hth : 0 < th)
    (hw : 0 < width)
    (hcap : (height : ℚ) ≤ 26 * overlapping_height tw th width) :
    ∀ y : ℤ, 0 ≤ y → y ≤ (height : ℤ) →
      ∃ v, v < num_segments tw th width height ∧
        zoomTop (zoomShiftFor (overlapping_height tw th width) height
          (num_segments tw th width height)) v ≤ y ∧
        y ≤ zoomBottom (zoomShiftFor (overlapping_height tw th width) height
          (num_segments tw th width height)) height
          (num_segments tw th width height) v := by
  intro y hy0 hyH
  set oh := overlapping_height tw th width with hoh_def
  set n := num_segments tw th width height with hn_def
  set shift := zoomShiftFor oh height n with hshift_def
  have hoh := overlapping_height_pos tw th width htw hth hw
  have hn3 : 3 ≤ n := num_segments_ge tw th width height
  have hn26 : n ≤ 26 := num_segments_le tw th width height
  have hident : (height : ℚ) = oh + shift * ((n : ℚ) - 1) :=
    height_ident oh height n (by omega)
  by_cases hs : 0 ≤ shift
  · -- non-negative shift: pick the greatest band whose top is at most y
    have hle : shift ≤ oh := zoom_shift_le_oh tw th width height htw hth hw hcap
    have htop0 : zoomTop shift 0 ≤ y := by
      unfold zoomTop
      rw [Nat.cast_zero, mul_zero, pyInt_zero]
      exact hy0
    set P := fun v => zoomTop shift v ≤ y with hP_def
    have hP0 : P 0 := htop0
    set v := Nat.findGreatest P (n - 1) with hv_def
    have hPv : P v := Nat.findGreatest_spec (Nat.zero_le _) hP0
    have hvle : v ≤ n - 1 := Nat.findGreatest_le _
    refine ⟨v, by omega, hPv, ?_⟩
    rcases Nat.lt_or_ge v (n - 1) with hlt | hge
    · -- maximality: the next band's top exceeds y, and tops never skip past
      -- the current band's bottom because shift*n ≤ height
      have hnP : ¬P (v + 1) :=
        @Nat.findGreatest_is_greatest (v + 1) P _ (n - 1) (by omega) (by omega)
      have hyt : y < zoomTop shift (v + 1) := by
        simp only [hP_def] at hnP
        omega
      have harg1 : (0 : ℚ) ≤ shift * ((v : ℚ) + 1) := by positivity
      have harg2 : shift * ((v : ℚ) + 1) ≤
          (height : ℚ) - shift * ((n : ℚ) - (v : ℚ) - 1) := by
        have hv1 : (v : ℚ) + 1 ≤ (n : ℚ) - 1 := by
          have : v + 1 ≤ n - 1 := by omega
          have hcast : ((v : ℚ) + 1) ≤ ((n - 1 : Nat) : ℚ) := by
            exact_mod_cast this
          rwa [Nat.cast_sub (by omega), Nat.cast_one] at hcast
        nlinarith
      have htb : zoomTop shift (v + 1) ≤ zoomBottom shift height n v := by
        unfold zoomTop zoomBottom
        rw [pyInt_of_nonneg _ (by push_cast; linarith),
          pyInt_of_nonneg _ (by linarith)]
        apply Int.floor_le_floor
        push_cast
        linarith
      omega
    · -- last band: its bottom is exactly the source height
      have hveq : v = n - 1 := by omega
      rw [hveq]
      unfold zoomBottom
      have hcast : ((n - 1 : Nat) : ℚ) = (n : ℚ) - 1 := by
        rw [Nat.cast_sub (by omega), Nat.cast_one]
      rw [hcast]
      have harg : (height : ℚ) - shift * ((n : ℚ) - ((n : ℚ) - 1) - 1) =
          (height : ℚ) := by ring
      rw [harg, pyInt_natCast]
      exact hyH
  · -- negative shift: band 0 alone spans past the whole height
    push_neg at hs
    refine ⟨0, by omega, ?_, ?_⟩
    · unfold zoomTop
      rw [Nat.cast_zero, mul_zero, pyInt_zero]
      exact hy0
    · unfold zoomBottom
      have harg : (height : ℚ) - shift * ((n : ℚ) - (0 : Nat) - 1) =
          oh + shift * ((n : ℚ) - 1) - shift * ((n : ℚ) - 1) + 0 := by
        rw [← hident]
        push_cast
        ring
      have hoh_ge : (height : ℚ) ≤
          (height : ℚ) - shift * ((n : ℚ) - (0 : Nat) - 1) := by
        push_cast
        have hn1 : (0 : ℚ) ≤ (n : ℚ) - 1 := by
          have : (1 : ℚ) ≤ (n : ℚ) := by exact_mod_cast (by omega : 1 ≤ n)
          linarith
        nlinarith
      rw [pyInt_of_nonneg _ (by
        have : (0 : ℚ) ≤ (height : ℚ) := by positivity
        push_cast at hoh_ge ⊢
        linarith)]
      have := Int.floor_le_floor hoh_ge
      rw [Int.floor_natCast] at this
      omega

theorem zoomTop_zero (shift : ℚ) : zoomTop shift 0 = 0 := by
  unfold zoomTop
  rw [Nat.cast_zero, mul_zero, pyInt_zero]

theorem zoomBottom_last (shift : ℚ) (height n : Nat) (hn : 1 ≤ n) :
    zoomBottom shift height n (n - 1) = (height : ℤ) := by
  unfold zoomBottom
  have hcast : ((n - 1 : Nat) : ℚ) = (n : ℚ) - 1 := by
    rw [Nat.cast_sub hn, Nat.cast_one]
  rw [hcast]
  have harg : (height : ℚ) - shift * ((n : ℚ) - ((n : ℚ) - 1) - 1) =
      (height : ℚ) := by ring
  rw [harg, pyInt_natCast]

/-- C5 (amended): at loop exit the overlap fraction `1 - shift/band_height`
is at least 0.05 or `num_bands = 26` (always); the first band's top is 0 and
the last band's bottom is `H` (always); and the band crop ranges cover
`[0, H]` whenever `H ≤ 26 · band_height` — at the 26-band cap with
`H > 26 · band_height` the bands leave gaps. -/
theorem C5_zoom_overlap_invariant (tw th width height : Nat)
    (htw : 0 < tw) (hth : 0 < th) (hw : 0 < width) (_hh : 0 < height) :
    (num_segments tw th width height = 26 ∨
      (1 : ℚ) / 20 ≤ 1 -
        zoomShiftFor (overlapping_height tw th width) height
            (num_segments tw th width height) /
          overlapping_height tw th width) ∧
    zoomTop (zoomShiftFor (overlapping_height tw th width) height
      (num_segments tw th width height)) 0 = 0 ∧
    zoomBottom (zoomShiftFor (overlapping_height tw th width) height
        (num_segments tw th width height)) height
        (num_segments tw th width height)
        (num_segments tw th width height - 1) = (height : ℤ) ∧
    ((height : ℚ) ≤ 26 * overlapping_height tw th width →
      ∀ y : ℤ, 0 ≤ y → y ≤ (height : ℤ) →
        ∃ v, v < num_segments tw th width height ∧
          zoomTop (zoomShiftFor (overlapping_height tw th width) height
            (num_segments tw th width height)) v ≤ y ∧
          y ≤ zoomBottom (zoomShiftFor (overlapping_height tw th width) height
            (num_segments tw th width height)) height
            (num_segments tw th width height) v) := by
  have hoh := overlapping_height_pos tw th width htw hth hw
  refine ⟨?_, zoomTop_zero _, zoomBottom_last _ height _
    (by have := num_segments_ge tw th width height; omega), ?_⟩
  · rcases num_segments_exit tw th width height with h26 | hstop
    · exact Or.inl h26
    · right
      by_cases hpos : 0 < zoomShiftFor (overlapping_height tw th width) height
          (num_segments tw th width height)
      · have hratio : ¬((19 : ℚ) / 20 <
            zoomShiftFor (overlapping_height tw th width) height
                (num_segments tw th width height) /
              overlapping_height tw th width) := fun hr => hstop ⟨hpos, hr⟩
        push_neg at hratio
        linarith
      · push_neg at hpos
        have hdiv : zoomShiftFor (overlapping_height tw th width) height
            (num_segments tw th width height) /
            overlapping_height tw th width ≤ 0 :=
          div_nonpos_of_nonpos_of_nonneg hpos (le_of_lt hoh)
        linarith
  · intro hcap
    exact zoom_cover tw th width height htw hth hw hcap

/-- Witness for C5 at the spec §8 scenario (480×1600 source, 480×800
    target). -/
theorem C5_zoom_overlap_invariant_witness :
    (num_segments 480 800 480 1600 = 26 ∨
      (1 : ℚ) / 20 ≤ 1 -
        zoomShiftFor (overlapping_height 480 800 480) 1600
            (num_segments 480 800 480 1600) /
          overlapping_height 480 800 480) ∧
    zoomTop (zoomShiftFor (overlapping_height 480 800 480) 1600
      (num_segments 480 800 480 1600)) 0 = 0 ∧
    zoomBottom (zoomShiftFor (overlapping_height 480 800 480) 1600
        (num_segments 480 800 480 1600)) 1600
        (num_segments 480 800 480 1600)
        (num_segments 480 800 480 1600 - 1) = (1600 : ℤ) ∧
    ((1600 : ℚ) ≤ 26 * overlapping_height 480 800 480 →
      ∀ y : ℤ, 0 ≤ y → y ≤ (1600 : ℤ) →
        ∃ v, v < num_segments 480 800 480 1600 ∧
          zoomTop (zoomShiftFor (overlapping_height 480 800 480) 1600
            (num_segments 480 800 480 1600)) v ≤ y ∧
          y ≤ zoomBottom (zoomShiftFor (overlapping_height 480 800 480) 1600
            (num_segments 480 800 480 1600)) 1600
            (num_segments 480 800 480 1600) v) :=
  C5_zoom_overlap_invariant 480 800 480 1600 (by norm_num) (by norm_num)
    (by norm_num) (by norm_num)

/-- Counterexample to C5 as stated: for a 480×10000 source at target
480×800 the loop caps at 26 bands with `shift = 9712/25 > band_height 288`,
and the crop ranges do not cover `[0, 10000]`: no band contains `y = 300`
(band 0 ends at 288 and band 1 starts at 388). -/
theorem C5_zoom_coverage_counterexample :
    ¬∃ v, v < num_segments 480 800 480 10000 ∧
      zoomTop (zoomShiftFor (overlapping_height 480 800 480) 10000
        (num_segments 480 800 480 10000)) v ≤ (300 : ℤ) ∧
      (300 : ℤ) ≤ zoomBottom (zoomShiftFor (overlapping_height 480 800 480)
        10000 (num_segments 480 800 480 10000)) 10000
        (num_segments 480 800 480 10000) v := by
  have hoh : overlapping_height 480 800 480 = 288 := by
    norm_num [overlapping_height, established_scale]
  have hn : num_segments 480 800 480 10000 = 26 := by
    norm_num [num_segments, zoomLoop, zoomShiftFor, overlapping_height,
      established_scale]
  have hshift : zoomShiftFor (overlapping_height 480 800 480) 10000 26 =
      9712 / 25 := by
    rw [hoh]
    norm_num [zoomShiftFor]
  rintro ⟨v, hv, htop, hbot⟩
  rw [hn] at hv htop hbot
  rw [hshift] at htop hbot
  cases v with
  | zero =>
    unfold zoomBottom at hbot
    push_cast at hbot
    norm_num at hbot
    have h288 : pyInt 288 = 288 := by
      have hc : ((288 : Nat) : ℚ) = 288 := by norm_num
      rw [← hc, pyInt_natCast]
      norm_num
    rw [h288] at hbot
    omega
  | succ u =>
    unfold zoomTop at htop
    have hge : (9712 / 25 : ℚ) ≤ 9712 / 25 * ((u + 1 : Nat) : ℚ) := by
      have h1 : (1 : ℚ) ≤ ((u + 1 : Nat) : ℚ) := by
        push_cast
        have h0 : (0 : ℚ) ≤ (u : ℚ) := by positivity
        linarith
      nlinarith
    have hfl : (301 : ℤ) ≤ pyInt (9712 / 25 * ((u + 1 : Nat) : ℚ)) := by
      rw [pyInt_of_nonneg _ (by positivity)]
      rw [Int.le_floor]
      push_cast
      push_cast at hge
      linarith
    omega

/-- C6 (amended): the zoom splitter emits, in band order, one page per band
`v`, cropping `[0, top, width, bottom]` with `top = int(shift*v)` and
`bottom = int(height - shift*(num_bands-v-1))` — Python `int()` truncation
toward zero, not round-to-nearest — then rotating 90° clockwise with canvas
expansion and resize-and-padding to the target size. -/
theorem C6_zoom_band_pipeline (img : Page) (tw th : Nat) (contrast : Int)
    (dithering : Bool) :
    process_zoom_page img tw th contrast dithering =
      (List.range (num_segments tw th img.width img.height)).map (fun v : Nat =>
        resize_and_pad
          (pil_rotate_cw
            (pil_crop img 0
              (pyInt (zoomShiftFor (overlapping_height tw th img.width)
                img.height (num_segments tw th img.width img.height) * (v : ℚ)))
              (img.width : Int)
              (pyInt ((img.height : ℚ) -
                zoomShiftFor (overlapping_height tw th img.width) img.height
                  (num_segments tw th img.width img.height) *
                  ((num_segments tw th img.width img.height : ℚ) - (v : ℚ) - 1)))))
          tw th dithering) := by
  unfold process_zoom_page to_grayscale
  rw [apply_contrast_eq]
  unfold zoomSegments zoomTop zoomBottom
  rfl

/-- Counterexample to C6 as stated: for a 479×1000 source at target 480×800
the loop settles on 4 bands with `shift = 3563/15 ≈ 237.53`; the code's
band-1 crop top is `int(shift) = 237`, while rounding to nearest as the
claim states gives 238. -/
theorem C6_truncation_counterexample :
    zoomTop (zoomShiftFor (overlapping_height 480 800 479) 1000
      (num_segments 480 800 479 1000)) 1 = 237 ∧
    round (zoomShiftFor (overlapping_height 480 800 479) 1000
      (num_segments 480 800 479 1000) * ((1 : Nat) : ℚ)) = 238 := by
  have hoh : overlapping_height 480 800 479 = 1437 / 5 := by
    norm_num [overlapping_height, established_scale]
  have hn : num_segments 480 800 479 1000 = 4 := by
    norm_num [num_segments, zoomLoop, zoomShiftFor, overlapping_height,
      established_scale]
  have hshift : zoomShiftFor (overlapping_height 480 800 479) 1000
      (num_segments 480 800 479 1000) = 3563 / 15 := by
    rw [hn, hoh]
    norm_num [zoomShiftFor]
  rw [hshift]
  constructor
  · unfold zoomTop
    rw [pyInt_of_nonneg _ (by positivity)]
    rw [Int.floor_eq_iff]
    push_cast
    norm_num
  · rw [round_eq]
    rw [Int.floor_eq_iff]
    push_cast
    norm_num

/-! ## Claim C10 -/

theorem step_pos (th ov : ℤ) (hth : 1 ≤ th) (h0 : 0 ≤ ov) (h90 : ov ≤ 90) :
    1 ≤ th - pyInt ((th : ℚ) * ((ov : ℚ) / 100)) := by
  have h1 : (1 : ℚ) ≤ (th : ℚ) := by exact_mod_cast hth
  have h2 : (0 : ℚ) ≤ (ov : ℚ) := by exact_mod_cast h0
  have h3 : (ov : ℚ) ≤ 90 := by exact_mod_cast h90
  have harg : (0 : ℚ) ≤ (th : ℚ) * ((ov : ℚ) / 100) := by positivity
  rw [pyInt_of_nonneg _ harg]
  have hlt : (th : ℚ) * ((ov : ℚ) / 100) < ((th : ℤ) : ℚ) := by
    nlinarith
  have := Int.floor_lt.mpr hlt
  omega

/-- C10 (implicit): `_parse_settings` clamps `overlap` into `[0, 90]` and
`contrast` into `[0, 8]` for every raw input; consequently, for any
`target_height ≥ 1` the long-strip step
`target_height - int(target_height * overlap/100)` is at least 1, so the
`step <= 0` fallback branch of `_process_long_strip` is unreachable under
parsed settings. -/
theorem C10_settings_clamped (raw : Option RawSettings) :
    0 ≤ (parse_settings raw).overlap ∧ (parse_settings raw).overlap ≤ 90 ∧
    0 ≤ (parse_settings raw).contrast ∧ (parse_settings raw).contrast ≤ 8 ∧
    (1 ≤ (parse_settings raw).target_height →
      1 ≤ long_strip_raw_step (parse_settings raw) ∧
      long_strip_step (parse_settings raw) =
        (long_strip_raw_step (parse_settings raw),
          pyInt (((parse_settings raw).target_height : ℚ) *
            (((parse_settings raw).overlap : ℚ) / 100)))) := by
  have hov : 0 ≤ (parse_settings raw).overlap ∧
      (parse_settings raw).overlap ≤ 90 := by
    rcases raw with _ | r
    · exact ⟨by norm_num [parse_settings, defaultSettings],
        by norm_num [parse_settings, defaultSettings]⟩
    · simp only [parse_settings]
      rcases r.overlap with _ | v
      · exact ⟨by norm_num [defaultSettings], by norm_num [defaultSettings]⟩
      · exact ⟨by simp, by simp⟩
  have hco : 0 ≤ (parse_settings raw).contrast ∧
      (parse_settings raw).contrast ≤ 8 := by
    rcases raw with _ | r
    · exact ⟨by norm_num [parse_settings, defaultSettings],
        by norm_num [parse_settings, defaultSettings]⟩
    · simp only [parse_settings]
      rcases r.contrast with _ | v
      · exact ⟨by norm_num [defaultSettings], by norm_num [defaultSettings]⟩
      · exact ⟨by simp, by simp⟩
  refine ⟨hov.1, hov.2, hco.1, hco.2, fun hth => ⟨?_, ?_⟩⟩
  · exact step_pos _ _ hth hov.1 hov.2
  · have hstep := step_pos _ _ hth hov.1 hov.2
    unfold long_strip_step long_strip_raw_step
    rw [if_neg (by omega)]

/-- Witness for C10 at a raw input with out-of-range overlap and contrast. -/
theorem C10_settings_clamped_witness :
    (0 ≤ (parse_settings (some ⟨some true, some false, some 200, some (-5),
        some 480, some 800⟩)).overlap ∧
      (parse_settings (some ⟨some true, some false, some 200, some (-5),
        some 480, some 800⟩)).overlap ≤ 90 ∧
      0 ≤ (parse_settings (some ⟨some true, some false, some 200, some (-5),
        some 480, some 800⟩)).contrast ∧
      (parse_settings (some ⟨some true, some false, some 200, some (-5),
        some 480, some 800⟩)).contrast ≤ 8 ∧
      1 ≤ long_strip_raw_step (parse_settings (some ⟨some true, some false,
        some 200, some (-5), some 480, some 800⟩))) ∧
    (parse_settings (some ⟨some true, some false, some 200, some (-5),
      some 480, some 800⟩)).overlap = 90 :=
  ⟨⟨(C10_settings_clamped _).1, (C10_settings_clamped _).2.1,
    (C10_settings_clamped _).2.2.1, (C10_settings_clamped _).2.2.2.1,
    ((C10_settings_clamped (some ⟨some true, some false, some 200, some (-5),
      some 480, some 800⟩)).2.2.2.2 (by decide)).1⟩,
   by decide⟩

/-! ## Claim C7 -/

theorem lookup_append_some (l1 l2 : List (Nat × String)) (n : Nat) (q : String)
    (h : l1.lookup n = some q) : (l1 ++ l2).lookup n = some q := by
  induction l1 with
  | nil => simp [List.lookup] at h
  | cons e rest ih =>
    rw [List.cons_append]
    cases hb : (n == e.1) with
    | true =>
      simp only [List.lookup, hb] at h ⊢
      exact h
    | false =>
      simp only [List.lookup, hb] at h ⊢
      exact ih h

theorem classifyStep_preserves (st : List (Nat × String) × List String)
    (p : String) (n : Nat) (q : String) (h : st.1.lookup n = some q) :
    (classifyStep st p).1.lookup n = some q := by
  unfold classifyStep
  rcases hext : extract_chapter_number p with ⟨cn, dec⟩
  rcases cn with _ | m
  · exact h
  · dsimp only
    by_cases hm : (st.1.lookup m).isSome
    · rw [if_pos hm]
      rcases dec
      · rw [if_neg (by simp)]
        exact h
      · rw [if_pos rfl]
        exact h
    · rw [if_neg hm]
      exact lookup_append_some st.1 [(m, p)] n q h

theorem classify_foldl (paths more : List String) :
    classify_cbz_files (paths ++ more) =
      more.foldl classifyStep (classify_cbz_files paths) := by
  unfold classify_cbz_files
  rw [List.foldl_append]

/-- C7: the classification loop appends an unrecognized filename to the
unrecognized list; a recognized chapter number claims a free slot; a number
colliding with an already-claimed slot is silently dropped when its source
was decimal and appended to the unrecognized list when non-decimal; and a
claimed slot is never overwritten by any later input. -/
theorem C7_classify_behavior :
    (∀ (st : List (Nat × String) × List String) (p : String) (b : Bool),
      extract_chapter_number p = (none, b) →
      classifyStep st p = (st.1, st.2 ++ [p])) ∧
    (∀ (st : List (Nat × String) × List String) (p : String) (n : Nat)
      (dec : Bool), extract_chapter_number p = (some n, dec) →
      st.1.lookup n = none →
      classifyStep st p = (st.1 ++ [(n, p)], st.2)) ∧
    (∀ (st : List (Nat × String) × List String) (p : String) (n : Nat),
      extract_chapter_number p = (some n, true) →
      (st.1.lookup n).isSome →
      classifyStep st p = st) ∧
    (∀ (st : List (Nat × String) × List String) (p : String) (n : Nat),
      extract_chapter_number p = (some n, false) →
      (st.1.lookup n).isSome →
      classifyStep st p = (st.1, st.2 ++ [p])) ∧
    (∀ (paths more : List String) (n : Nat) (q : String),
      (classify_cbz_files paths).1.lookup n = some q →
      (classify_cbz_files (paths ++ more)).1.lookup n = some q) := by
  refine ⟨?_, ?_, ?_, ?_, ?_⟩
  · intro st p b hext
    unfold classifyStep
    rw [hext]
  · intro st p n dec hext hfree
    unfold classifyStep
    rw [hext]
    dsimp only
    rcases dec <;> rw [if_neg (by rw [hfree]; simp)]
  · intro st p n hext hclaimed
    unfold classifyStep
    rw [hext]
    dsimp only
    rw [if_pos hclaimed, if_pos rfl]
  · intro st p n hext hclaimed
    unfold classifyStep
    rw [hext]
    dsimp only
    rw [if_pos hclaimed, if_neg (by simp)]
  · intro paths more n q h
    rw [classify_foldl]
    induction more generalizing paths with
    | nil => exact h
    | cons p rest ih =>
      rw [List.foldl_cons]
      have hstep := classifyStep_preserves (classify_cbz_files paths) p n q h
      have hre : classifyStep (classify_cbz_files paths) p =
          classify_cbz_files (paths ++ [p]) := by
        rw [classify_foldl paths [p], List.foldl_cons, List.foldl_nil]
      rw [hre]
      rw [hre] at hstep
      exact ih (paths ++ [p]) hstep

/-- Witness for C7: the spec's two scenarios evaluated concretely, plus the
decimal-collision rule applied at chapter 2. -/
theorem C7_classify_behavior_witness :
    classifyStep ([(2, "ch2.cbz")], []) "ch2.5.cbz" = ([(2, "ch2.cbz")], []) ∧
    classify_cbz_files ["ch1.cbz", "ch2.cbz", "ch2.5.cbz", "ch3.cbz"] =
      ([(1, "ch1.cbz"), (2, "ch2.cbz"), (3, "ch3.cbz")], []) ∧
    classify_cbz_files ["ch1.cbz", "chapter 1.cbz", "ch2.cbz"] =
      ([(1, "ch1.cbz"), (2, "ch2.cbz")], ["chapter 1.cbz"]) :=
  ⟨C7_classify_behavior.2.2.1 ([(2, "ch2.cbz")], []) "ch2.5.cbz" 2
      (by decide) (by decide),
   by decide, by decide⟩

/-! ## Claim C8 -/

/-- Modelled from the spec (refinement reading, for comparison with the
code): "standalone numeric tokens (not embedded inside a longer
alphanumeric run)" — a number token whose neighbouring characters are not
alphanumeric. -/
def specStandaloneAux : Nat → Bool → List Char → List (List Char)
  | 0, _, _ => []
  | _ + 1, _, [] => []
  | fuel + 1, prevAlnum, c :: rest =>
    if c.isDigit ∧ prevAlnum = false then
      match matchNumber (c :: rest) with
      | some (g, after) =>
        (match after with
          | [] => [g]
          | d :: _ => if d.isAlphanum then [] else [g]) ++
          specStandaloneAux fuel true after
      | none => []
    else specStandaloneAux fuel c.isAlphanum rest

/-- Modelled from the spec: all standalone number tokens of `s`, per the
spec's words. -/
def specStandaloneTokens (s : List Char) : List (List Char) :=
  specStandaloneAux s.length false s

/-- C8 (amended): with no chapter-keyword match, `extract_chapter_number`
strips volume/book noise and returns the last number token with the
integer/decimal split, where a token is a maximal digit run (with optional
decimal part) delimited by non-digits — it may be embedded inside letters;
the claim's concrete examples hold. -/
theorem C8_fallback_extraction :
    extract_chapter_number "Some Manga 007.cbz" = (some 7, false) ∧
    extract_chapter_number "cover.cbz" = (none, false) ∧
    (∀ f : String,
      chPatternsSearch
        ((pySplitextRoot (pyBasename f.toList)).map Char.toLower) = none →
      extract_chapter_number f =
        (match (findNumTokens (volNoiseSub
            ((pySplitextRoot (pyBasename f.toList)).map Char.toLower))).getLast? with
         | some g => (some (numVal g), isDecimalStr g)
         | none => (none, false))) := by
  refine ⟨by decide, by decide, ?_⟩
  intro f h
  unfold extract_chapter_number
  dsimp only
  rw [h]

/-- Witness for C8: the fallback equation applied at the claim's own
example. -/
theorem C8_fallback_extraction_witness :
    chPatternsSearch ((pySplitextRoot
      (pyBasename "Some Manga 007.cbz".toList)).map Char.toLower) = none ∧
    extract_chapter_number "Some Manga 007.cbz" =
      (match (findNumTokens (volNoiseSub ((pySplitextRoot
          (pyBasename "Some Manga 007.cbz".toList)).map Char.toLower))).getLast? with
       | some g => (some (numVal g), isDecimalStr g)
       | none => (none, false)) :=
  ⟨by decide, C8_fallback_extraction.2.2 "Some Manga 007.cbz" (by decide)⟩

/-- Counterexample to C8 as stated: `"abc123.cbz"` has no standalone
numeric token in the spec's sense (123 is embedded in an alphanumeric run),
so the claim's reading demands `(none, false)` — but the code's regex only
forbids digit-adjacency, and returns `(123, false)`. -/
theorem C8_embedded_token_counterexample :
    extract_chapter_number "abc123.cbz" = (some 123, false) ∧
    specStandaloneTokens ((pySplitextRoot
      (pyBasename "abc123.cbz".toList)).map Char.toLower) = [] := by
  decide

end XteinkSpec
